import Mathlib

/-!
# Verification of the alerts-engine rule evaluator and run orchestrator

This development shallowly embeds the core of the `alerts-engine` repository:

* `src/domain/ruleEvaluator.ts` — the condition/trend interpreter
  (`RuleEvaluator.evaluate` and its helpers), including the JavaScript
  string operations it relies on (`String.prototype.split`, `trim`,
  `replace`, `includes`, the two band-bound extraction regular expressions
  and `parseFloat`);
* `src/infrastructure/db/alertsRepo.ts` — the keyed batch upsert
  (`AlertsRepository.upsertAlerts`, an `INSERT … ON CONFLICT (alert_id, ts)
  DO UPDATE` loop inside one transaction);
* `src/application/use-cases/evaluate-alerts.use-case.ts` and
  `src/application/use-cases/run-daily-alerts.use-case.ts` — the run
  orchestration (health gate, rule loop with per-rule error isolation, and
  the two batch upsert call sites).

Numbers are modelled as rationals (`ℚ`): every numeric literal appearing in
the rules and test vectors of the repository is so small that IEEE-754
double comparisons agree with exact rational comparisons on them, and no
claim under consideration exercises rounding. JavaScript strings are
modelled as `List Char`.
-/

namespace AlertsEngine

/-- Decidable equality for `Except`, so that concrete evaluation results
can be checked by `decide`. -/
instance {ε α : Type} [DecidableEq ε] [DecidableEq α] : DecidableEq (Except ε α) :=
  fun a b =>
  match a, b with
  | .error e, .error f =>
    if h : e = f then isTrue (h ▸ rfl) else isFalse (fun hc => h (Except.error.inj hc))
  | .ok x, .ok y =>
    if h : x = y then isTrue (h ▸ rfl) else isFalse (fun hc => h (Except.ok.inj hc))
  | .error _, .ok _ => isFalse (fun hc => Except.noConfusion hc)
  | .ok _, .error _ => isFalse (fun hc => Except.noConfusion hc)

/-! ## JavaScript string primitives

The evaluator manipulates condition strings with `split(' AND ')`, `trim()`,
`replace(op, '')`, `includes(op)`, `startsWith('value')`, two regular
expressions and `parseFloat`.  We embed each of these over `List Char`. -/

/-- JavaScript whitespace (`\s`) as it can occur in condition strings. -/
def jsIsSpace (c : Char) : Bool :=
  c = ' ' || c = '\t' || c = '\n' || c = '\r'

/-- The separator `' AND '` of `condition.split(' AND ')`. -/
def sepAND : List Char := [' ', 'A', 'N', 'D', ' ']

/-- `String.prototype.split(' AND ')`: cut at each leftmost,
non-overlapping occurrence of the separator (the first pattern below takes
precedence, so a separator occurrence is consumed as soon as it starts).
`acc` holds the (reversed) characters of the current field. -/
def splitANDAux (acc : List Char) : List Char → List (List Char)
  | ' ' :: 'A' :: 'N' :: 'D' :: ' ' :: rest => acc.reverse :: splitANDAux [] rest
  | c :: cs => splitANDAux (c :: acc) cs
  | [] => [acc.reverse]

/-- `condition.split(' AND ')`. -/
def splitAND (l : List Char) : List (List Char) := splitANDAux [] l

/-- `String.prototype.trim()`: strip whitespace from both ends. -/
def jsTrim (l : List Char) : List Char :=
  ((l.dropWhile jsIsSpace).reverse.dropWhile jsIsSpace).reverse

/-- `String.prototype.includes(sub)`. -/
def containsSubstr : List Char → List Char → Bool
  | l, sub => sub.isPrefixOf l ||
      match l with
      | [] => false
      | _ :: cs => containsSubstr cs sub

/-- `String.prototype.replace(target, '')` with a plain-string pattern:
remove the first occurrence of `target` (leave the string unchanged when
there is none). -/
def removeFirst (l target : List Char) : List Char :=
  if target.isPrefixOf l then List.drop target.length l
  else
    match l with
    | [] => []
    | c :: cs => c :: removeFirst cs target

/-- `String.prototype.startsWith(p)`. -/
def jsStartsWith (l p : List Char) : Bool := p.isPrefixOf l

/-- `thresholdStr.replace(/^value\s+/, '')`: drop a leading `value` token
followed by at least one whitespace character; otherwise unchanged. -/
def stripLeadingValueToken (l : List Char) : List Char :=
  match l with
  | 'v' :: 'a' :: 'l' :: 'u' :: 'e' :: c :: rest =>
    if jsIsSpace c then rest.dropWhile jsIsSpace else l
  | _ => l

/-! ## Decimal numerals and `parseFloat` -/

/-- Value of a (most-significant-first) digit string. -/
def digitsToNat : List Char → Nat
  | [] => 0
  | c :: cs => digitsToNat cs + c.toNat.sub 48 * 10 ^ cs.length

/-- Greedy match of the capture group `\d+\.?\d*` at the head of the
input: maximal digit run, then an optional dot, then another maximal digit
run.  Returns the captured characters and the rest of the input.  For this
group followed by `\s*<` (resp. preceded by `<=\s*`) the backtracking
search of the JavaScript engine coincides with this maximal munch: any
shorter match of a quantifier leaves a digit or a dot at the continuation
point, where only whitespace or `<` can match. -/
def matchNum (l : List Char) : Option (List Char × List Char) :=
  let d1 := l.takeWhile Char.isDigit
  if d1.isEmpty then none
  else
    match l.dropWhile Char.isDigit with
    | '.' :: r2 =>
      some (d1 ++ '.' :: r2.takeWhile Char.isDigit, r2.dropWhile Char.isDigit)
    | r1 => some (d1, r1)

/-- The rational denoted by a decimal literal with sign `sgn`, integer
digits `ip`, fraction digits `fp` and decimal exponent `exp`:
`sgn * ip.fp * 10^exp`.  Written with `mkRat` over integer arithmetic
(`(ip·10^|fp| + fp) / 10^|fp|`, then scaled by the exponent) so that it
evaluates inside the kernel. -/
def decToRat (sgn : Int) (ip fp : List Char) (exp : Int) : ℚ :=
  let f := fp.length
  let m : Int := sgn * ((digitsToNat ip : Int) * 10 ^ f + (digitsToNat fp : Int))
  if 0 ≤ exp then mkRat (m * 10 ^ exp.toNat) (10 ^ f)
  else mkRat m (10 ^ f * 10 ^ (-exp).toNat)

/-- The optional sign of a decimal literal. -/
def jsReadSign : List Char → Int × List Char
  | '-' :: r => (-1, r)
  | '+' :: r => (1, r)
  | l => (1, l)

/-- The optional `.digits` fraction part after the integer digits. -/
def jsReadFrac : List Char → List Char × List Char
  | '.' :: r => (r.takeWhile Char.isDigit, r.dropWhile Char.isDigit)
  | l => ([], l)

/-- Exponent digits after `e`/`E`: optional sign then at least one digit;
a malformed exponent is not consumed (contributes `0`). -/
def jsReadExpDigits (r : List Char) : Int :=
  match r with
  | '-' :: d => if (d.takeWhile Char.isDigit).isEmpty then 0
                else -(digitsToNat (d.takeWhile Char.isDigit) : Int)
  | '+' :: d => if (d.takeWhile Char.isDigit).isEmpty then 0
                else (digitsToNat (d.takeWhile Char.isDigit) : Int)
  | d => if (d.takeWhile Char.isDigit).isEmpty then 0
         else (digitsToNat (d.takeWhile Char.isDigit) : Int)

/-- The optional exponent part of a decimal literal. -/
def jsReadExp : List Char → Int
  | 'e' :: r => jsReadExpDigits r
  | 'E' :: r => jsReadExpDigits r
  | _ => 0

/-- `parseFloat` on an arbitrary string: skip leading whitespace, optional
sign, longest decimal-literal prefix `digits[.digits] | .digits`, optional
well-formed exponent.  `none` models `NaN` (no valid prefix).  The literal
`Infinity`, which `parseFloat` also accepts, never occurs in this
repository's condition strings and is not modelled. -/
def jsParseFloat (l : List Char) : Option ℚ :=
  let l1 := l.dropWhile jsIsSpace
  let (sgn, l2) := jsReadSign l1
  let int := l2.takeWhile Char.isDigit
  let l3 := l2.dropWhile Char.isDigit
  let (frac, l4) := jsReadFrac l3
  if int.isEmpty && frac.isEmpty then none
  else some (decToRat sgn int frac (jsReadExp l4))

/-! ## The two band-bound regular expressions

`evaluateBand` extracts its bounds with
`lowerPart.match(/(\d+\.?\d*)\s*<\s*value/)` and
`upperPart.match(/value\s*<=\s*(\d+\.?\d*)/)` — an unanchored search
returning the capture of the leftmost match. -/

/-- Attempt `(\d+\.?\d*)\s*<\s*value` at the start of the input. -/
def matchLowerAt (l : List Char) : Option (List Char) :=
  match matchNum l with
  | none => none
  | some (cap, r1) =>
    match r1.dropWhile jsIsSpace with
    | '<' :: r2 =>
      if jsStartsWith (r2.dropWhile jsIsSpace) ['v', 'a', 'l', 'u', 'e']
      then some cap else none
    | _ => none

/-- Leftmost match of `(\d+\.?\d*)\s*<\s*value`; returns its capture
(at the empty string the attempt fails and the search ends). -/
def searchLower : List Char → Option (List Char)
  | [] => none
  | c :: cs =>
    match matchLowerAt (c :: cs) with
    | some cap => some cap
    | none => searchLower cs

/-- Attempt `value\s*<=\s*(\d+\.?\d*)` at the start of the input. -/
def matchUpperAt (l : List Char) : Option (List Char) :=
  match l with
  | 'v' :: 'a' :: 'l' :: 'u' :: 'e' :: r =>
    match r.dropWhile jsIsSpace with
    | '<' :: '=' :: r2 => (matchNum (r2.dropWhile jsIsSpace)).map Prod.fst
    | _ => none
  | _ => none

/-- Leftmost match of `value\s*<=\s*(\d+\.?\d*)`; returns its capture. -/
def searchUpper : List Char → Option (List Char)
  | [] => none
  | c :: cs =>
    match matchUpperAt (c :: cs) with
    | some cap => some cap
    | none => searchUpper cs

/-! ## Domain model (`src/domain/alert.ts`) -/

/-- Alert severity level. -/
inductive AlertLevel
  | red
  | amber
  | green
deriving DecidableEq, Repr

/-- Trend specification of a `threshold_with_trend` rule.  The trend rule
name is kept as a string, as in the source, where an unrecognized name
falls into the evaluator's `unsupported_trend_rule` branch. -/
structure TrendConfig where
  windowPoints : Nat
  rule : String
deriving DecidableEq, Repr

/-- A rule, as consumed by the evaluator.  `type` is kept as a string:
the TypeScript union type is erased at runtime and the evaluator
dispatches on the string, with a `default` error branch. -/
structure Rule where
  alertId : String
  metricId : String
  level : AlertLevel
  type : String
  condition : String
  message : String
  threshold : Option ℚ
  window : Option String
  units : Option String
  inputs : Option (List String)
  notes : Option String
  minConsecutive : Option Nat
  trend : Option TrendConfig
deriving DecidableEq, Repr

/-- The metadata argument of `RuleEvaluator.evaluate`. -/
structure Metadata where
  base_ts : Option String
  oficial_fx_source : Option String
deriving DecidableEq, Repr

/-- JavaScript truthiness of an optional string
(`undefined` and `''` are falsy). -/
def jsTruthyStr : Option String → Option String
  | none => none
  | some s => if s = "" then none else some s

/-- The enriched payload attached to every evaluation result. -/
structure EnrichedAlertPayload where
  value : ℚ
  value_pct : ℚ
  threshold : ℚ
  units : String
  window : Option String
  inputs : Option (List String)
  base_ts : Option String
  oficial_fx_source : Option String
  notes : Option String
deriving DecidableEq, Repr

/-- `value * 100`, written with `mkRat` over integer arithmetic so that it
evaluates inside the kernel (`Rat.mul` does not). -/
def timesHundred (q : ℚ) : ℚ := mkRat (q.num * 100) q.den

/-- `timesHundred` is multiplication by 100. -/
theorem timesHundred_eq (q : ℚ) : timesHundred q = q * 100 := by
  rw [timesHundred, Rat.mkRat_eq_divInt, Rat.divInt_eq_div]
  push_cast
  rw [mul_comm q 100, mul_div_right_comm, Rat.num_div_den]
  exact mul_comm q 100

/-- The information content of `EvaluationResult.threshold`, the
human-readable bound representation: the (trimmed) remainder string for a
simple comparison, and the pair of parsed bounds for a band (the source
formats the latter as `` `(${lowerBound}, ${upperBound}]` ``; the numeral
rendering of the two rationals is not modelled, no claim depends on it). -/
inductive ThresholdRepr
  | str : List Char → ThresholdRepr
  | band : ℚ → ℚ → ThresholdRepr
deriving DecidableEq, Repr

/-- Result of `RuleEvaluator.evaluate`.  The source's optional `payload`
field is populated on every successfully constructed result, so it is
non-optional here. -/
structure EvaluationResult where
  triggered : Bool
  value : ℚ
  threshold : ThresholdRepr
  level : AlertLevel
  payload : EnrichedAlertPayload
  reason : Option String
deriving DecidableEq, Repr

/-- Result of the private trend evaluation helpers. -/
structure TrendEvaluationResult where
  triggered : Bool
  reason : String
  trendValues : List ℚ
deriving DecidableEq, Repr

/-! ## The rule evaluator (`src/domain/ruleEvaluator.ts`) -/

namespace RuleEvaluator

/-- `ALLOWED_OPERATORS` after `sort((a, b) => b.length - a.length)`:
JavaScript's sort is stable, so the four two-character operators keep
their declaration order and precede the one-character ones. -/
def sortedOps : List (List Char) :=
  ["<=", ">=", "==", "!=", "<", ">"].map String.data

/-- `findOperator`: the first operator of `sortedOps` occurring as a
substring of the condition. -/
def findOperator (condition : List Char) : Option (List Char) :=
  sortedOps.find? (containsSubstr condition)

/-- `compareValues`; `none` models the `Unsupported operator` throw of the
`default` branch (unreachable from `evaluate`, which only passes operators
found by `findOperator`). -/
def compareValues (value : ℚ) (op : List Char) (threshold : ℚ) : Option Bool :=
  if op = "<=".data then some (decide (value ≤ threshold))
  else if op = ">=".data then some (decide (value ≥ threshold))
  else if op = "<".data then some (decide (value < threshold))
  else if op = ">".data then some (decide (value > threshold))
  else if op = "==".data then some (decide (value = threshold))
  else if op = "!=".data then some (decide (value ≠ threshold))
  else none

/-- `buildEnrichedPayload`.  `rule.threshold || 0` and
`rule.units || 'ratio'` use JavaScript truthiness (an absent threshold
gives `0`, an absent or empty units string gives `"ratio"`); the optional
fields are attached only when truthy. -/
def buildEnrichedPayload (value : ℚ) (rule : Rule) (md : Metadata) :
    EnrichedAlertPayload where
  value := value
  value_pct := timesHundred value
  threshold := rule.threshold.getD 0
  units :=
    match rule.units with
    | some u => if u = "" then "ratio" else u
    | none => "ratio"
  window := jsTruthyStr rule.window
  inputs := rule.inputs
  base_ts := jsTruthyStr md.base_ts
  oficial_fx_source := jsTruthyStr md.oficial_fx_source
  notes := jsTruthyStr rule.notes

/-- `evaluateThreshold`: find an operator, drop its first occurrence,
trim, drop a leading `value` token, `parseFloat` the remainder, compare. -/
def evaluateThreshold (rule : Rule) (value : ℚ) (md : Metadata) :
    Except String EvaluationResult :=
  match findOperator rule.condition.data with
  | none => .error ("Invalid condition format: " ++ rule.condition)
  | some operator =>
    let t1 := jsTrim (removeFirst rule.condition.data operator)
    let thresholdStr :=
      if jsStartsWith t1 "value".data then jsTrim (stripLeadingValueToken t1)
      else t1
    match jsParseFloat thresholdStr with
    | none => .error "Invalid threshold value"
    | some threshold =>
      match compareValues value operator threshold with
      | none => .error "Unsupported operator"
      | some triggered =>
        .ok { triggered := triggered
              value := value
              threshold := .str thresholdStr
              level := rule.level
              payload := buildEnrichedPayload value rule md
              reason := none }

/-- Bound extraction of `evaluateBand`: split on `' AND '` into exactly
two parts, run the two bound regular expressions, `parseFloat` the
captures.  A capture of `\d+\.?\d*` is always a valid numeral, so the
`getD 0` defaults never fire. -/
def parseBandCondition (cond : List Char) : Option (ℚ × ℚ) :=
  match splitAND cond with
  | [p0, p1] =>
    match searchLower (jsTrim p0), searchUpper (jsTrim p1) with
    | some lcap, some ucap =>
      some ((jsParseFloat lcap).getD 0, (jsParseFloat ucap).getD 0)
    | _, _ => none
  | _ => none

/-- `evaluateBand`: trigger on `lowerBound < value && value <= upperBound`. -/
def evaluateBand (rule : Rule) (value : ℚ) (md : Metadata) :
    Except String EvaluationResult :=
  match parseBandCondition rule.condition.data with
  | none => .error ("Invalid band condition format: " ++ rule.condition)
  | some (lowerBound, upperBound) =>
    .ok { triggered := decide (lowerBound < value) && decide (value ≤ upperBound)
          value := value
          threshold := .band lowerBound upperBound
          level := rule.level
          payload := buildEnrichedPayload value rule md
          reason := none }

/-- `values.slice(-windowPoints)`.  For `windowPoints = 0` the JavaScript
index `-0` normalizes to `+0` and the slice is the whole array. -/
def jsSliceNeg (values : List ℚ) (windowPoints : Nat) : List ℚ :=
  if windowPoints = 0 then values else values.drop (values.length - windowPoints)

/-- `evaluateNonDecreasing`: fails at the first strict decrease of an
adjacent pair. -/
def hasAdjacentDecrease : List ℚ → Bool
  | a :: b :: rest => decide (b < a) || hasAdjacentDecrease (b :: rest)
  | _ => false

/-- `evaluateNonDecreasing`. -/
def evaluateNonDecreasing (values : List ℚ) : TrendEvaluationResult :=
  if hasAdjacentDecrease values then
    { triggered := false, reason := "trend_not_non_decreasing", trendValues := values }
  else
    { triggered := true, reason := "trend_non_decreasing", trendValues := values }

/-- The loop of `evaluateAtLeast4Of5Increasing`: number of adjacent pairs
with a strict increase. -/
def countAdjIncreases : List ℚ → Nat
  | a :: b :: rest => (if a < b then 1 else 0) + countAdjIncreases (b :: rest)
  | _ => 0

/-- `evaluateAtLeast4Of5Increasing`: trigger iff at least 4 adjacent pairs
increase strictly (the constant 4 is independent of the window size). -/
def evaluateAtLeast4Of5Increasing (values : List ℚ) : TrendEvaluationResult :=
  let triggered := decide (4 ≤ countAdjIncreases values)
  { triggered := triggered
    reason := if triggered then "trend_at_least_4_increasing"
              else "trend_insufficient_increases"
    trendValues := values }

/-- `evaluateTrend`: window guard, `slice(-windowPoints)`, dispatch on the
trend rule name. -/
def evaluateTrend (trendConfig : TrendConfig) (values : List ℚ) :
    TrendEvaluationResult :=
  if values.length < trendConfig.windowPoints then
    { triggered := false, reason := "insufficient_points", trendValues := values }
  else
    let recentValues := jsSliceNeg values trendConfig.windowPoints
    if trendConfig.rule = "non_decreasing" then
      evaluateNonDecreasing recentValues
    else if trendConfig.rule = "at_least_4_of_5_increasing" then
      evaluateAtLeast4Of5Increasing recentValues
    else
      { triggered := false, reason := "unsupported_trend_rule"
        trendValues := recentValues }

/-- `evaluateThresholdWithTrend`: the threshold condition is evaluated by
`evaluateThreshold` (also for band-shaped conditions); only when it
triggers is the trend consulted.  `rule.trend!` on an absent trend is a
runtime `TypeError` when destructured, reached only after the threshold
passed. -/
def evaluateThresholdWithTrend (rule : Rule) (value : ℚ)
    (trendValues : List ℚ) (md : Metadata) : Except String EvaluationResult :=
  match evaluateThreshold rule value md with
  | .error e => .error e
  | .ok thresholdResult =>
    if !thresholdResult.triggered then
      .ok { thresholdResult with reason := some "threshold_not_met" }
    else
      match rule.trend with
      | none => .error "TypeError: trend is not defined"
      | some trendConfig =>
        let trendResult := evaluateTrend trendConfig trendValues
        if !trendResult.triggered then
          .ok { thresholdResult with
                triggered := false, reason := some trendResult.reason }
        else
          .ok { thresholdResult with
                triggered := true, reason := some "threshold_and_trend_met" }

/-- `RuleEvaluator.evaluate`.  The `NaN` guard of the source cannot fire
over `ℚ` (every rational is a finite number); `trendValues` receives the
caller's `trendValues || []`. -/
def evaluate (rule : Rule) (value : ℚ) (trendValues : List ℚ)
    (md : Metadata) : Except String EvaluationResult :=
  if rule.type = "threshold" then evaluateThreshold rule value md
  else if rule.type = "band" then evaluateBand rule value md
  else if rule.type = "threshold_with_trend" then
    evaluateThresholdWithTrend rule value trendValues md
  else .error ("Unsupported rule type: " ++ rule.type)

end RuleEvaluator

/-! ## The Alert Store (`src/infrastructure/db/alertsRepo.ts`)

`AlertsRepository.upsertAlerts` runs, inside one transaction, an
`INSERT … ON CONFLICT (alert_id, ts) DO UPDATE SET level, message,
payload, created_at = NOW()` per alert, counting an insert when `xmax = 0`
(no conflicting row) and an update otherwise.  The table is modelled as a
list of rows; the transaction makes a failed batch leave the store
unchanged, which the orchestrator model reflects by not applying the
batch at all on a failing call. -/

/-- An alert as handed to the store. -/
structure Alert where
  alertId : String
  ts : String
  level : AlertLevel
  message : String
  payload : EnrichedAlertPayload
deriving DecidableEq, Repr

/-- A persisted row of `alerts.alerts`.  `createdAt` is the audit
timestamp (refreshed on every conflict update); the surrogate UUID `id`
carries no information and is omitted. -/
structure StoredAlert where
  alertId : String
  ts : String
  level : AlertLevel
  message : String
  payload : EnrichedAlertPayload
  createdAt : Nat
deriving DecidableEq, Repr

/-- Result of a batch upsert. -/
structure UpsertResult where
  inserted : Nat
  updated : Nat
deriving DecidableEq, Repr

/-- The dedup key of an alert. -/
def alertKey (a : Alert) : String × String := (a.alertId, a.ts)

/-- The dedup key of a stored row. -/
def rowKey (r : StoredAlert) : String × String := (r.alertId, r.ts)

/-- All dedup keys of a store. -/
def storeKeys (s : List StoredAlert) : List (String × String) := s.map rowKey

/-- A stored row without its audit timestamp (for "identical up to the
refreshed audit timestamp" comparisons). -/
def rowData (r : StoredAlert) : String × String × AlertLevel × String × EnrichedAlertPayload :=
  (r.alertId, r.ts, r.level, r.message, r.payload)

/-- A store without its audit timestamps. -/
def storeData (s : List StoredAlert) :
    List (String × String × AlertLevel × String × EnrichedAlertPayload) :=
  s.map rowData

/-- One `INSERT … ON CONFLICT (alert_id, ts) DO UPDATE`: update the row
with the alert's key in place if one exists (refreshing `created_at`),
otherwise append a new row.  Returns the new store and whether a row was
inserted. -/
def upsertOne (now : Nat) : List StoredAlert → Alert → List StoredAlert × Bool
  | [], a =>
    ([{ alertId := a.alertId, ts := a.ts, level := a.level,
        message := a.message, payload := a.payload, createdAt := now }], true)
  | r :: rs, a =>
    if r.alertId = a.alertId ∧ r.ts = a.ts then
      ({ r with level := a.level, message := a.message,
                payload := a.payload, createdAt := now } :: rs, false)
    else
      let (rs', ins) := upsertOne now rs a
      (r :: rs', ins)

/-- The loop of `upsertAlerts`, threading the insert/update counters. -/
def upsertLoop (now : Nat) :
    List StoredAlert → List Alert → Nat → Nat → List StoredAlert × UpsertResult
  | s, [], ins, upd => (s, ⟨ins, upd⟩)
  | s, a :: as, ins, upd =>
    let (s', wasInserted) := upsertOne now s a
    upsertLoop now s' as (if wasInserted then ins + 1 else ins)
      (if wasInserted then upd else upd + 1)

/-- `AlertsRepository.upsertAlerts` (the successful-transaction case). -/
def upsertAlerts (now : Nat) (store : List StoredAlert) (alerts : List Alert) :
    List StoredAlert × UpsertResult :=
  upsertLoop now store alerts 0 0

/-! ## The run orchestrator

`EvaluateAlertsUseCase.execute` loads the rules (a failure propagates),
evaluates every rule in a `try`/`catch` loop (any failure only skips that
rule), and — if any alerts were produced — upserts them itself, catching
and only logging an upsert failure.  `RunDailyAlertsUseCase.execute` runs
the health gate, then that evaluation, then `persistAlerts`, which upserts
the same batch again and rethrows on failure; only after a fully
successful sequence does it update the last-run summary. -/

/-- The per-rule metric data assembled by `fetchMetricData`
(`fetchTrendData` also supplies the parsed series for trend rules). -/
structure MetricData where
  value : ℚ
  ts : String
  trendValues : Option (List ℚ)
  oficialFxSource : Option String
deriving DecidableEq, Repr

/-- Outcome of the per-rule data fetch: a thrown fetch error, a
missing-metric/empty-series result (`null` in the source), or data. -/
inductive FetchResult
  | fetchErr (msg : String)
  | noData
  | found (md : MetricData)
deriving DecidableEq, Repr

/-- The environment of one run: the health probe outcome, the rule-load
outcome, the per-rule fetch outcome, and — indexed by a global call
counter — whether each successive Alert Store upsert call fails (its
transaction then rolls back). -/
structure RunEnv where
  health : Except String String
  rules : Except String (List Rule)
  fetch : Rule → FetchResult
  upsertFails : Nat → Bool

/-- Observable events of a run, in order. -/
inductive RunEvent
  | ruleEvaluated (alertId : String)
  | upsertCalled (batch : List Alert) (result : Option UpsertResult)
deriving DecidableEq, Repr

/-- Mutable state threaded through runs: the Alert Store, the event
trace, the upsert call counter, and the orchestrator's process-local
last-run summary (`lastRunAlerts`, `lastRunAt`). -/
structure RunState where
  store : List StoredAlert
  trace : List RunEvent
  upsertCalls : Nat
  lastRunAlerts : List Alert
  lastRunAt : Option Nat
deriving DecidableEq, Repr

/-- `EvaluateAlertsUseCase.evaluateRule` under the loop's `catch`: a
fetch error or evaluation error yields no alert (the rule is skipped), no
data yields no alert, and a triggered evaluation yields the alert built
by `createAlert` (the metric timestamp as `ts`, the rule's message, the
evaluation's level and payload). -/
def evaluateRuleModel (env : RunEnv) (rule : Rule) : Option Alert :=
  match env.fetch rule with
  | .fetchErr _ => none
  | .noData => none
  | .found md =>
    match RuleEvaluator.evaluate rule md.value (md.trendValues.getD [])
        { base_ts := some md.ts,
          oficial_fx_source := jsTruthyStr md.oficialFxSource } with
    | .error _ => none
    | .ok ev =>
      if ev.triggered then
        some { alertId := rule.alertId, ts := md.ts, level := ev.level,
               message := rule.message, payload := ev.payload }
      else none

/-- The `for (const rule of this.rules)` loop of
`EvaluateAlertsUseCase.execute`: push the alert of every rule whose
evaluation produced one; a rule that produced none (skipped or failed)
leaves the accumulator unchanged and the loop continues. -/
def evalLoop (env : RunEnv) : List Rule → List Alert
  | [] => []
  | r :: rest =>
    match evaluateRuleModel env r with
    | some a => a :: evalLoop env rest
    | none => evalLoop env rest

/-- The batch an environment's rules produce (empty when rule loading
fails, in which case the loop is never reached). -/
def alertsOf (env : RunEnv) : List Alert :=
  match env.rules with
  | .error _ => []
  | .ok rules => evalLoop env rules

/-- `EvaluateAlertsUseCase.execute`: load rules (failure propagates),
evaluate each rule, then — if any alerts were produced — call the store
upsert once with the whole batch, catching (and only logging) a failure. -/
def evaluateAlertsExecute (env : RunEnv) (now : Nat) (st : RunState) :
    Except String (List Alert) × RunState :=
  match env.rules with
  | .error m => (.error m, st)
  | .ok rules =>
    let alerts := evalLoop env rules
    let st1 := { st with
      trace := st.trace ++ rules.map (fun r => RunEvent.ruleEvaluated r.alertId) }
    if alerts.isEmpty then (.ok alerts, st1)
    else if env.upsertFails st1.upsertCalls then
      (.ok alerts,
       { st1 with trace := st1.trace ++ [.upsertCalled alerts none],
                  upsertCalls := st1.upsertCalls + 1 })
    else
      let (s', res) := upsertAlerts now st1.store alerts
      (.ok alerts,
       { st1 with store := s',
                  trace := st1.trace ++ [.upsertCalled alerts (some res)],
                  upsertCalls := st1.upsertCalls + 1 })

/-- `RunDailyAlertsUseCase.persistAlerts`: skip an empty batch; otherwise
upsert it, rethrowing on failure. -/
def persistAlertsModel (env : RunEnv) (now : Nat) (alerts : List Alert)
    (st : RunState) : Except String Unit × RunState :=
  if alerts.isEmpty then (.ok (), st)
  else if env.upsertFails st.upsertCalls then
    (.error "Failed to persist alerts",
     { st with trace := st.trace ++ [.upsertCalled alerts none],
               upsertCalls := st.upsertCalls + 1 })
  else
    let (s', res) := upsertAlerts now st.store alerts
    (.ok (),
     { st with store := s',
               trace := st.trace ++ [.upsertCalled alerts (some res)],
               upsertCalls := st.upsertCalls + 1 })

/-- `RunDailyAlertsUseCase.execute`: health gate (an unreachable probe is
rethrown as `Metrics API is unreachable`, a degraded status only warns),
evaluation, persistence, and — only on full success — the last-run
summary update. -/
def runDailyExecute (env : RunEnv) (now : Nat) (st : RunState) :
    Except String Unit × RunState :=
  match env.health with
  | .error m => (.error ("Metrics API is unreachable: " ++ m), st)
  | .ok _status =>
    match evaluateAlertsExecute env now st with
    | (.error m, st1) => (.error m, st1)
    | (.ok alerts, st1) =>
      match persistAlertsModel env now alerts st1 with
      | (.error m, st2) => (.error m, st2)
      | (.ok _, st2) =>
        (.ok (), { st2 with lastRunAlerts := alerts, lastRunAt := some now })

/-! ## Spec-side notions for the trend claims -/

/-- Modelled from the spec: "the most recent `windowPoints` values" of a
series (all of it when the window covers the whole series). -/
def mostRecent (windowPoints : Nat) (values : List ℚ) : List ℚ :=
  values.drop (values.length - windowPoints)

/-- Modelled from the spec: the number of adjacent pairs of a series with
a strict increase. -/
def pairwiseIncreases (values : List ℚ) : Nat :=
  (values.zip values.tail).countP (fun p => decide (p.1 < p.2))

/-- The evaluator's increase counter agrees with the spec-side pairwise
count. -/
theorem countAdjIncreases_eq_pairwiseIncreases (l : List ℚ) :
    RuleEvaluator.countAdjIncreases l = pairwiseIncreases l := by
  induction l with
  | nil => rfl
  | cons a rest ih =>
    cases rest with
    | nil => rfl
    | cons b rest' =>
      simp only [RuleEvaluator.countAdjIncreases, pairwiseIncreases,
        List.tail_cons, List.zip_cons_cons, List.countP_cons] at *
      rw [ih]
      by_cases h : a < b
      · simp [h, Nat.add_comm]
      · simp [h]

/-! ## C9 — `at_least_4_of_5_increasing` -/

/-- C9 (amended): for every `at_least_4_of_5_increasing` trend rule with
`windowPoints ≥ 1` and a series of at least `windowPoints` values, the
evaluator counts adjacent strict increases over exactly the most recent
`windowPoints` values and triggers precisely when that count is at least
4 — a constant independent of `windowPoints`; below 4 the reason is
`trend_insufficient_increases`.  (For `windowPoints = 0` the slice
`slice(-0)` degenerates to the whole series; see the counterexample.)
The spec's two test series are included. -/
theorem trend_atLeast4_counts_recent_window :
    (∀ (wp : Nat) (values : List ℚ), 1 ≤ wp → wp ≤ values.length →
      RuleEvaluator.evaluateTrend ⟨wp, "at_least_4_of_5_increasing"⟩ values =
        { triggered := decide (4 ≤ pairwiseIncreases (mostRecent wp values))
          reason := if 4 ≤ pairwiseIncreases (mostRecent wp values)
                    then "trend_at_least_4_increasing"
                    else "trend_insufficient_increases"
          trendValues := mostRecent wp values }) ∧
    (RuleEvaluator.evaluateTrend ⟨5, "at_least_4_of_5_increasing"⟩
      [1, 2, 3, 4, 5]).triggered = true ∧
    RuleEvaluator.evaluateTrend ⟨5, "at_least_4_of_5_increasing"⟩ [5, 4, 3, 2, 1] =
      ⟨false, "trend_insufficient_increases", [5, 4, 3, 2, 1]⟩ := by
  refine ⟨?_, by decide, by decide⟩
  intro wp values h1 h2
  have hlen : ¬ (values.length < wp) := by omega
  have hwp : ¬ (wp = 0) := by omega
  simp only [RuleEvaluator.evaluateTrend, RuleEvaluator.jsSliceNeg,
    RuleEvaluator.evaluateAtLeast4Of5Increasing, hlen, hwp, if_false,
    countAdjIncreases_eq_pairwiseIncreases, ite_false, reduceIte]
  by_cases h : 4 ≤ pairwiseIncreases (mostRecent wp values)
  · simp [mostRecent, h]
  · simp [mostRecent, h]

/-- C9 witness: the general statement instantiated at `windowPoints = 5`
and the series `[1, 2, 3, 4, 5]`. -/
theorem trend_atLeast4_counts_recent_window_witness :
    (1 ≤ 5 ∧ 5 ≤ ([1, 2, 3, 4, 5] : List ℚ).length) ∧
    RuleEvaluator.evaluateTrend ⟨5, "at_least_4_of_5_increasing"⟩ [1, 2, 3, 4, 5] =
      { triggered := decide (4 ≤ pairwiseIncreases (mostRecent 5 [1, 2, 3, 4, 5]))
        reason := if 4 ≤ pairwiseIncreases (mostRecent 5 [1, 2, 3, 4, 5])
                  then "trend_at_least_4_increasing"
                  else "trend_insufficient_increases"
        trendValues := mostRecent 5 [1, 2, 3, 4, 5] } :=
  ⟨⟨by decide, by decide⟩,
   trend_atLeast4_counts_recent_window.1 5 [1, 2, 3, 4, 5] (by decide) (by decide)⟩

/-- C9 counterexample: at `windowPoints = 0` (a series always has "at
least 0" values) the code evaluates the whole series — `[1,2,3,4,5]`
triggers — while a count over "only the most recent 0 values" is `0 < 4`
and could never trigger. -/
theorem trend_atLeast4_windowZero_counterexample :
    (RuleEvaluator.evaluateTrend ⟨0, "at_least_4_of_5_increasing"⟩
      [1, 2, 3, 4, 5]).triggered = true ∧
    mostRecent 0 [1, 2, 3, 4, 5] = [] ∧
    pairwiseIncreases (mostRecent 0 ([1, 2, 3, 4, 5] : List ℚ)) = 0 := by
  refine ⟨by decide, by decide, by decide⟩

/-! ## C8 — threshold-with-trend short-circuit -/

/-- A `threshold_with_trend` rule whose base condition is band-shaped. -/
def bandTrendRule : Rule :=
  { alertId := "r.band_trend", metricId := "m", level := .amber
    type := "threshold_with_trend"
    condition := "0.002 < value AND value <= 0.01", message := "msg"
    threshold := none, window := none, units := none, inputs := none
    notes := none, minConsecutive := none
    trend := some ⟨5, "non_decreasing"⟩ }

/-- The spec's threshold-with-trend example rule (`value >= 0.08`). -/
def trendRule008 : Rule :=
  { alertId := "r.trend008", metricId := "m", level := .amber
    type := "threshold_with_trend"
    condition := "value >= 0.08", message := "msg"
    threshold := some (mkRat 8 100), window := none, units := none
    inputs := none, notes := none, minConsecutive := none
    trend := some ⟨5, "non_decreasing"⟩ }

/-- C8 counterexample: for the band-based trend rule and value `0.001`,
the band condition `0.002 < value AND value <= 0.01` is *not* satisfied
(`¬ 0.002 < 0.001`), yet evaluation does not return
`threshold_not_met` — it proceeds to the trend and triggers, because
`evaluateThresholdWithTrend` parses the band-shaped condition through the
simple-threshold path (first operator found is `<=`, `parseFloat` of the
remainder yields the lower bound `0.002`, so the base test is
`value ≤ 0.002`, which `0.001` passes). -/
theorem thresholdWithTrend_band_counterexample :
    ¬ (mkRat 2 1000 < mkRat 1 1000) ∧
    (RuleEvaluator.evaluate bandTrendRule (mkRat 1 1000) [1, 2, 3, 4, 5]
        ⟨none, none⟩).map (fun r => (r.triggered, r.reason)) =
      .ok (true, some "threshold_and_trend_met") := by
  refine ⟨by decide, by decide⟩

/-- C8 (amended): for every `threshold_with_trend` rule the base
condition is evaluated by the *simple-threshold* evaluator; whenever that
evaluation does not trigger, the result is the threshold result with
`triggered = false` and reason `threshold_not_met`, identical for every
trend series supplied (the trend is not evaluated).  A band-shaped base
condition is misparsed by that path: for the canonical band shape the
first operator found is `<=` and the parsed threshold is the *lower*
bound, so the base test degenerates to `value ≤ lower`, as the second
conjunct shows on `0.002 < value AND value <= 0.01`. -/
theorem thresholdWithTrend_shortCircuit :
    (∀ (rule : Rule) (v : ℚ) (tv : List ℚ) (md : Metadata)
       (tr : EvaluationResult),
      rule.type = "threshold_with_trend" →
      RuleEvaluator.evaluateThreshold rule v md = .ok tr →
      tr.triggered = false →
      RuleEvaluator.evaluate rule v tv md =
        .ok { tr with reason := some "threshold_not_met" }) ∧
    (∀ v : ℚ,
      (RuleEvaluator.evaluateThreshold bandTrendRule v ⟨none, none⟩).map
          (·.triggered) =
        .ok (decide (v ≤ mkRat 2 1000))) := by
  constructor
  · intro rule v tv md tr htype hthr htrig
    unfold RuleEvaluator.evaluate
    rw [htype]
    rw [if_neg (by decide), if_neg (by decide), if_pos rfl]
    unfold RuleEvaluator.evaluateThresholdWithTrend
    rw [hthr]
    dsimp only
    rw [htrig]
    rfl
  · intro v
    rfl

/-- The threshold result of the C8 witness scenario. -/
def trC8 : EvaluationResult :=
  { triggered := false, value := mkRat 5 100, threshold := .str "0.08".data
    level := .amber
    payload := RuleEvaluator.buildEnrichedPayload (mkRat 5 100) trendRule008
      ⟨none, none⟩
    reason := none }

/-- C8 witness: the general short-circuit applied to the spec's example —
threshold `value >= 0.08`, value `0.05` (threshold fails) — with the
increasing trend series `[1, 2, 3, 4, 5]`. -/
theorem thresholdWithTrend_shortCircuit_witness :
    (trendRule008.type = "threshold_with_trend" ∧
     RuleEvaluator.evaluateThreshold trendRule008 (mkRat 5 100) ⟨none, none⟩ =
       .ok trC8 ∧
     trC8.triggered = false) ∧
    RuleEvaluator.evaluate trendRule008 (mkRat 5 100) [1, 2, 3, 4, 5]
        ⟨none, none⟩ =
      .ok { trC8 with reason := some "threshold_not_met" } :=
  ⟨⟨rfl, by decide, rfl⟩,
   thresholdWithTrend_shortCircuit.1 trendRule008 (mkRat 5 100) [1, 2, 3, 4, 5]
     ⟨none, none⟩ trC8 rfl (by decide) rfl⟩

/-! ## C10 — band bound extraction on signed / exponent numerals -/

/-- A band rule whose upper bound is signed. -/
def signedUpperBandRule : Rule :=
  { alertId := "r.signed_upper", metricId := "m", level := .amber
    type := "band", condition := "0.002 < value AND value <= -0.01"
    message := "msg", threshold := none, window := none, units := none
    inputs := none, notes := none, minConsecutive := none, trend := none }

/-- The spec example: a band rule whose lower bound is signed. -/
def signedLowerBandRule : Rule :=
  { alertId := "r.signed_lower", metricId := "m", level := .amber
    type := "band", condition := "-0.05 < value AND value <= 0.01"
    message := "msg", threshold := none, window := none, units := none
    inputs := none, notes := none, minConsecutive := none, trend := none }

/-- C10 counterexample: a band rule whose *upper* bound is signed is in
the claim's class ("lower or upper bound written signed"), yet its
evaluation *does* raise the validation error: the upper regular
expression `value\s*<=\s*(\d+\.?\d*)` requires a digit right after the
`<=`, and the literal `value` it is anchored on occurs nowhere later, so
the match fails and `evaluateBand` throws. -/
theorem band_signedUpper_counterexample :
    RuleEvaluator.evaluate signedUpperBandRule 0 [] ⟨none, none⟩ =
      .error "Invalid band condition format: 0.002 < value AND value <= -0.01" := by
  decide

/-! ## Store lemmas -/

/-- The store invariant: dedup keys are pairwise distinct. -/
def UniqueKeys (s : List StoredAlert) : Prop := (storeKeys s).Nodup

instance (s : List StoredAlert) : Decidable (UniqueKeys s) :=
  inferInstanceAs (Decidable (storeKeys s).Nodup)

/-- The row produced by an insert. -/
def newRow (now : Nat) (a : Alert) : StoredAlert :=
  { alertId := a.alertId, ts := a.ts, level := a.level,
    message := a.message, payload := a.payload, createdAt := now }

/-- The in-place update a conflicting upsert applies to the matched row. -/
def updRow (now : Nat) (a : Alert) (r : StoredAlert) : StoredAlert :=
  { r with level := a.level, message := a.message, payload := a.payload,
           createdAt := now }

/-- The effect of upserting `a` on a single row: overwrite it when the
keys match, leave it alone otherwise. -/
def applyAlert (now : Nat) (a : Alert) (r : StoredAlert) : StoredAlert :=
  if rowKey r = alertKey a then updRow now a r else r

/-- The effect of upserting a whole batch on a single row. -/
def applyBatch (now : Nat) (batch : List Alert) (r : StoredAlert) : StoredAlert :=
  batch.foldl (fun r a => applyAlert now a r) r

theorem rowKey_updRow (now : Nat) (a : Alert) (r : StoredAlert) :
    rowKey (updRow now a r) = rowKey r := rfl

theorem rowKey_applyAlert (now : Nat) (a : Alert) (r : StoredAlert) :
    rowKey (applyAlert now a r) = rowKey r := by
  unfold applyAlert
  split <;> rfl

theorem rowKey_applyBatch (now : Nat) (batch : List Alert) (r : StoredAlert) :
    rowKey (applyBatch now batch r) = rowKey r := by
  induction batch generalizing r with
  | nil => rfl
  | cons a as ih => rw [applyBatch, List.foldl_cons]; exact (ih _).trans (rowKey_applyAlert ..)

theorem storeKeys_map_applyAlert (now : Nat) (a : Alert) (s : List StoredAlert) :
    storeKeys (s.map (applyAlert now a)) = storeKeys s := by
  unfold storeKeys
  rw [List.map_map]
  exact List.map_congr_left fun r _ => rowKey_applyAlert ..

theorem storeKeys_nil : storeKeys [] = [] := rfl

theorem storeKeys_cons (r : StoredAlert) (rs : List StoredAlert) :
    storeKeys (r :: rs) = rowKey r :: storeKeys rs := rfl

theorem rowKey_eq_alertKey (r : StoredAlert) (a : Alert) :
    rowKey r = alertKey a ↔ (r.alertId = a.alertId ∧ r.ts = a.ts) := by
  simp [rowKey, alertKey, Prod.ext_iff]

theorem map_applyAlert_of_not_mem (now : Nat) (a : Alert) (s : List StoredAlert)
    (h : alertKey a ∉ storeKeys s) : s.map (applyAlert now a) = s := by
  induction s with
  | nil => rfl
  | cons r rs ih =>
    rw [storeKeys_cons, List.mem_cons, not_or] at h
    rw [List.map_cons, show applyAlert now a r = r from if_neg (fun he => h.1 he.symm),
        ih h.2]

/-- The row/insert behavior of a single upsert when the key is absent:
the row is appended. -/
theorem upsertOne_not_mem (now : Nat) (a : Alert) (s : List StoredAlert)
    (h : alertKey a ∉ storeKeys s) :
    upsertOne now s a = (s ++ [newRow now a], true) := by
  induction s with
  | nil => rfl
  | cons r rs ih =>
    rw [storeKeys_cons, List.mem_cons, not_or] at h
    have h1 : ¬ (r.alertId = a.alertId ∧ r.ts = a.ts) :=
      fun hc => h.1 (((rowKey_eq_alertKey r a).2 hc).symm)
    rw [upsertOne, if_neg h1, ih h.2]
    rfl

/-- The row/update behavior of a single upsert when the key is present in
a store with unique keys: the matched row is updated in place and no row
is added. -/
theorem upsertOne_mem (now : Nat) (a : Alert) (s : List StoredAlert)
    (hnd : UniqueKeys s) (h : alertKey a ∈ storeKeys s) :
    upsertOne now s a = (s.map (applyAlert now a), false) := by
  induction s with
  | nil => simp [storeKeys] at h
  | cons r rs ih =>
    rw [storeKeys_cons] at h
    rw [UniqueKeys, storeKeys_cons, List.nodup_cons] at hnd
    by_cases hk : rowKey r = alertKey a
    · have hnotin : alertKey a ∉ storeKeys rs := hk ▸ hnd.1
      rw [upsertOne, if_pos ((rowKey_eq_alertKey r a).1 hk), List.map_cons,
          show applyAlert now a r = updRow now a r from if_pos hk,
          map_applyAlert_of_not_mem now a rs hnotin]
      rfl
    · have h1 : ¬ (r.alertId = a.alertId ∧ r.ts = a.ts) :=
        fun hc => hk ((rowKey_eq_alertKey r a).2 hc)
      have hmem : alertKey a ∈ storeKeys rs := by
        rcases List.mem_cons.1 h with hc | hc
        · exact absurd hc.symm hk
        · exact hc
      rw [upsertOne, if_neg h1, ih hnd.2 hmem, List.map_cons,
          show applyAlert now a r = r from if_neg hk]

/-- Keys after a single upsert. -/
theorem storeKeys_upsertOne (now : Nat) (a : Alert) (s : List StoredAlert) :
    storeKeys (upsertOne now s a).1 =
      if alertKey a ∈ storeKeys s then storeKeys s
      else storeKeys s ++ [alertKey a] := by
  induction s with
  | nil => simp [upsertOne, storeKeys, newRow, rowKey, alertKey]
  | cons r rs ih =>
    by_cases hk : rowKey r = alertKey a
    · rw [upsertOne, if_pos ((rowKey_eq_alertKey r a).1 hk),
          if_pos (by rw [storeKeys_cons, ← hk]; exact List.mem_cons_self _ _)]
      rfl
    · rw [upsertOne, if_neg (fun hc => hk ((rowKey_eq_alertKey r a).2 hc))]
      have hfst : ((match upsertOne now rs a with
          | (rs', ins) => (r :: rs', ins)) : List StoredAlert × Bool).1 =
          r :: (upsertOne now rs a).1 := rfl
      rw [hfst, storeKeys_cons, ih]
      by_cases hm : alertKey a ∈ storeKeys rs
      · rw [if_pos hm,
            if_pos (by rw [storeKeys_cons]; exact List.mem_cons_of_mem _ hm),
            storeKeys_cons]
      · rw [if_neg hm,
            if_neg (by
              rw [storeKeys_cons, List.mem_cons]
              rintro (hc | hc)
              · exact hk hc.symm
              · exact hm hc),
            storeKeys_cons, List.cons_append]

/-- A single upsert preserves the uniqueness invariant. -/
theorem uniqueKeys_upsertOne (now : Nat) (a : Alert) (s : List StoredAlert)
    (hnd : UniqueKeys s) : UniqueKeys (upsertOne now s a).1 := by
  unfold UniqueKeys
  rw [storeKeys_upsertOne]
  by_cases hm : alertKey a ∈ storeKeys s
  · rw [if_pos hm]; exact hnd
  · rw [if_neg hm]
    simpa [List.nodup_append] using ⟨hnd, hm⟩

theorem mem_storeKeys_upsertOne (now : Nat) (a : Alert) (s : List StoredAlert)
    (k : String × String) (h : k ∈ storeKeys s) :
    k ∈ storeKeys (upsertOne now s a).1 := by
  rw [storeKeys_upsertOne]
  by_cases hm : alertKey a ∈ storeKeys s
  · rw [if_pos hm]; exact h
  · rw [if_neg hm]; exact List.mem_append_left _ h

theorem self_mem_storeKeys_upsertOne (now : Nat) (a : Alert) (s : List StoredAlert) :
    alertKey a ∈ storeKeys (upsertOne now s a).1 := by
  rw [storeKeys_upsertOne]
  by_cases hm : alertKey a ∈ storeKeys s
  · rw [if_pos hm]; exact hm
  · rw [if_neg hm]; exact List.mem_append_right _ (List.mem_singleton.2 rfl)

theorem mem_storeKeys_upsertLoop (now : Nat) (batch : List Alert) :
    ∀ (s : List StoredAlert) (i u : Nat) (k : String × String),
      k ∈ storeKeys s → k ∈ storeKeys (upsertLoop now s batch i u).1 := by
  induction batch with
  | nil => intro s i u k h; exact h
  | cons a as ih =>
    intro s i u k h
    rw [upsertLoop]
    exact ih _ _ _ _ (mem_storeKeys_upsertOne now a s k h)

theorem batch_mem_storeKeys_upsertLoop (now : Nat) (batch : List Alert) :
    ∀ (s : List StoredAlert) (i u : Nat) (a : Alert), a ∈ batch →
      alertKey a ∈ storeKeys (upsertLoop now s batch i u).1 := by
  induction batch with
  | nil => intro s i u a h; exact absurd h (List.not_mem_nil a)
  | cons b bs ih =>
    intro s i u a h
    rw [upsertLoop]
    rcases List.mem_cons.1 h with hc | hc
    · subst hc
      exact mem_storeKeys_upsertLoop now bs _ _ _ _
        (self_mem_storeKeys_upsertOne now a s)
    · exact ih _ _ _ _ hc

theorem uniqueKeys_upsertLoop (now : Nat) (batch : List Alert) :
    ∀ (s : List StoredAlert) (i u : Nat), UniqueKeys s →
      UniqueKeys (upsertLoop now s batch i u).1 := by
  induction batch with
  | nil => intro s i u h; exact h
  | cons a as ih =>
    intro s i u h
    rw [upsertLoop]
    exact ih _ _ _ (uniqueKeys_upsertOne now a s h)

/-- `upsertAlerts` preserves the uniqueness invariant. -/
theorem uniqueKeys_upsertAlerts (now : Nat) (s : List StoredAlert)
    (batch : List Alert) (h : UniqueKeys s) :
    UniqueKeys (upsertAlerts now s batch).1 :=
  uniqueKeys_upsertLoop now batch s 0 0 h

/-- When every batch key is already present in a unique-key store, the
whole batch is processed as in-place updates: the store is mapped by the
batch's overwrite function, nothing is inserted, and every alert counts
as an update. -/
theorem upsertLoop_all_mem (now : Nat) (batch : List Alert) :
    ∀ (s : List StoredAlert) (i u : Nat), UniqueKeys s →
      (∀ a ∈ batch, alertKey a ∈ storeKeys s) →
      upsertLoop now s batch i u =
        (s.map (applyBatch now batch), ⟨i, u + batch.length⟩) := by
  induction batch with
  | nil =>
    intro s i u _ _
    show (s, UpsertResult.mk i u) = _
    have hmap : List.map (applyBatch now []) s = List.map id s :=
      List.map_congr_left fun r _ => rfl
    rw [hmap, List.map_id]
    rfl
  | cons a as ih =>
    intro s i u hnd hmem
    rw [upsertLoop, upsertOne_mem now a s hnd (hmem a (List.mem_cons_self a as))]
    have hnd' : UniqueKeys (s.map (applyAlert now a)) := by
      unfold UniqueKeys
      rw [storeKeys_map_applyAlert]
      exact hnd
    have hmem' : ∀ b ∈ as, alertKey b ∈ storeKeys (s.map (applyAlert now a)) := by
      intro b hb
      rw [storeKeys_map_applyAlert]
      exact hmem b (List.mem_cons_of_mem a hb)
    show upsertLoop now (s.map (applyAlert now a)) as i (u + 1) = _
    rw [ih _ _ _ hnd' hmem', List.map_map]
    refine congrArg₂ Prod.mk (List.map_congr_left fun r _ => rfl) ?_
    rw [List.length_cons, Nat.add_assoc, Nat.add_comm 1 as.length]

/-- `upsertAlerts` on an all-present batch: in-place updates only,
`inserted = 0`, `updated = batch.length`. -/
theorem upsertAlerts_all_mem (now : Nat) (s : List StoredAlert)
    (batch : List Alert) (hnd : UniqueKeys s)
    (hmem : ∀ a ∈ batch, alertKey a ∈ storeKeys s) :
    upsertAlerts now s batch = (s.map (applyBatch now batch), ⟨0, batch.length⟩) := by
  have := upsertLoop_all_mem now batch s 0 0 hnd hmem
  rwa [Nat.zero_add] at this

/-- The data (key and content, without the audit timestamp) written to a
row by the last batch entry matching its key. -/
def dataAfter (a : Alert) (r : StoredAlert) :
    String × String × AlertLevel × String × EnrichedAlertPayload :=
  (r.alertId, r.ts, a.level, a.message, a.payload)

/-- The last batch entry with the given dedup key. -/
def lastMatch (batch : List Alert) (k : String × String) : Option Alert :=
  (batch.filter (fun a => decide (alertKey a = k))).getLast?

theorem dataAfter_applyAlert (b : Alert) (now : Nat) (a : Alert) (r : StoredAlert) :
    dataAfter b (applyAlert now a r) = dataAfter b r := by
  unfold applyAlert
  split <;> rfl

theorem dataAfter_applyBatch (b : Alert) (now : Nat) (batch : List Alert)
    (r : StoredAlert) : dataAfter b (applyBatch now batch r) = dataAfter b r := by
  induction batch generalizing r with
  | nil => rfl
  | cons a as ih =>
    rw [applyBatch, List.foldl_cons]
    exact (ih _).trans (dataAfter_applyAlert ..)

/-- Row content after a batch of overwrites: the last matching batch
entry wins; a row no batch entry matches is unchanged. -/
theorem rowData_applyBatch (now : Nat) (batch : List Alert) :
    ∀ r : StoredAlert,
      rowData (applyBatch now batch r) =
        match lastMatch batch (rowKey r) with
        | some a => dataAfter a r
        | none => rowData r := by
  induction batch with
  | nil => intro r; rfl
  | cons a as ih =>
    intro r
    rw [applyBatch, List.foldl_cons]
    have step : List.foldl (fun r a => applyAlert now a r) (applyAlert now a r) as =
        applyBatch now as (applyAlert now a r) := rfl
    rw [step, ih (applyAlert now a r), rowKey_applyAlert]
    unfold lastMatch
    by_cases hk : alertKey a = rowKey r
    · rw [List.filter_cons_of_pos (by simpa using hk)]
      cases hm : (as.filter (fun b => decide (alertKey b = rowKey r))).getLast? with
      | none =>
        have hnil := List.getLast?_eq_none_iff.1 hm
        have hupd : applyAlert now a r = updRow now a r :=
          if_pos ((rowKey_eq_alertKey r a).2 ⟨congrArg Prod.fst hk.symm,
            congrArg Prod.snd hk.symm⟩)
        rw [hnil, hupd]
        rfl
      | some b =>
        obtain ⟨x, l', hxl⟩ : ∃ x l',
            as.filter (fun b => decide (alertKey b = rowKey r)) = x :: l' := by
          cases hfl : as.filter (fun b => decide (alertKey b = rowKey r)) with
          | nil => rw [hfl] at hm; exact absurd hm (by simp)
          | cons x l' => exact ⟨x, l', rfl⟩
        rw [hxl] at hm ⊢
        rw [List.getLast?_cons_cons, hm]
        exact dataAfter_applyAlert ..
    · rw [List.filter_cons_of_neg (by simpa using hk)]
      have : applyAlert now a r = r :=
        if_neg (fun he => hk he.symm)
      rw [this]

/-- Re-overwriting with the same batch does not change row content: the
last matching entry wins both times. -/
theorem rowData_applyBatch_twice (now1 now2 : Nat) (batch : List Alert)
    (r : StoredAlert) :
    rowData (applyBatch now2 batch (applyBatch now1 batch r)) =
      rowData (applyBatch now1 batch r) := by
  rw [rowData_applyBatch, rowData_applyBatch, rowKey_applyBatch]
  cases hm : lastMatch batch (rowKey r) with
  | none => rfl
  | some a => exact dataAfter_applyBatch ..

/-- Store content (without audit timestamps) is stable under a second
pass of the same batch of overwrites. -/
theorem storeData_map_applyBatch_twice (now1 now2 : Nat) (batch : List Alert)
    (s : List StoredAlert) :
    storeData ((s.map (applyBatch now1 batch)).map (applyBatch now2 batch)) =
      storeData (s.map (applyBatch now1 batch)) := by
  unfold storeData
  simp only [List.map_map]
  refine List.map_congr_left fun r _ => ?_
  simp only [Function.comp]
  exact rowData_applyBatch_twice ..

/-! ## Run-shape lemmas -/

/-- The rule loop is the per-rule filter-map: each rule contributes
independently through `evaluateRuleModel`. -/
theorem evalLoop_eq_filterMap (env : RunEnv) (rules : List Rule) :
    evalLoop env rules = rules.filterMap (evaluateRuleModel env) := by
  induction rules with
  | nil => rfl
  | cons r rest ih =>
    rw [evalLoop, List.filterMap_cons]
    cases evaluateRuleModel env r <;> simp [ih]

/-- State after the rule loop's per-rule events. -/
def stAfterRules (st : RunState) (rules : List Rule) : RunState :=
  { st with trace := st.trace ++ rules.map (fun r => RunEvent.ruleEvaluated r.alertId) }

theorem runDaily_healthFail (env : RunEnv) (now : Nat) (st : RunState)
    (m : String) (h : env.health = .error m) :
    runDailyExecute env now st =
      (.error ("Metrics API is unreachable: " ++ m), st) := by
  unfold runDailyExecute
  rw [h]

theorem evaluateExecute_rulesFail (env : RunEnv) (now : Nat) (st : RunState)
    (m : String) (h : env.rules = .error m) :
    evaluateAlertsExecute env now st = (.error m, st) := by
  unfold evaluateAlertsExecute
  rw [h]

theorem runDaily_rulesFail (env : RunEnv) (now : Nat) (st : RunState)
    (m hs : String) (hh : env.health = .ok hs) (h : env.rules = .error m) :
    runDailyExecute env now st = (.error m, st) := by
  unfold runDailyExecute
  rw [hh, evaluateExecute_rulesFail env now st m h]

theorem evaluateExecute_ok_empty (env : RunEnv) (now : Nat) (st : RunState)
    (rules : List Rule) (hr : env.rules = .ok rules)
    (hA : evalLoop env rules = []) :
    evaluateAlertsExecute env now st = (.ok [], stAfterRules st rules) := by
  unfold evaluateAlertsExecute
  rw [hr]
  dsimp only
  rw [hA]
  rfl

theorem evaluateExecute_ok_upsertFail (env : RunEnv) (now : Nat) (st : RunState)
    (rules : List Rule) (hr : env.rules = .ok rules)
    (hA : ¬ evalLoop env rules = [])
    (hf : env.upsertFails st.upsertCalls = true) :
    evaluateAlertsExecute env now st =
      (.ok (evalLoop env rules),
       { st with
         trace := st.trace ++ rules.map (fun r => RunEvent.ruleEvaluated r.alertId)
                    ++ [.upsertCalled (evalLoop env rules) none]
         upsertCalls := st.upsertCalls + 1 }) := by
  unfold evaluateAlertsExecute
  rw [hr]
  dsimp only
  rw [if_neg (by simpa using hA), if_pos hf]

theorem evaluateExecute_ok_upsertOk (env : RunEnv) (now : Nat) (st : RunState)
    (rules : List Rule) (hr : env.rules = .ok rules)
    (hA : ¬ evalLoop env rules = [])
    (hf : env.upsertFails st.upsertCalls = false) :
    evaluateAlertsExecute env now st =
      (.ok (evalLoop env rules),
       { st with
         store := (upsertAlerts now st.store (evalLoop env rules)).1
         trace := st.trace ++ rules.map (fun r => RunEvent.ruleEvaluated r.alertId)
                    ++ [.upsertCalled (evalLoop env rules)
                         (some (upsertAlerts now st.store (evalLoop env rules)).2)]
         upsertCalls := st.upsertCalls + 1 }) := by
  unfold evaluateAlertsExecute
  rw [hr]
  dsimp only
  rw [if_neg (by simpa using hA), if_neg (by simp [hf])]

theorem persistModel_empty (env : RunEnv) (now : Nat) (st : RunState) :
    persistAlertsModel env now [] st = (.ok (), st) := rfl

theorem persistModel_fail (env : RunEnv) (now : Nat) (alerts : List Alert)
    (st : RunState) (hA : ¬ alerts = [])
    (hf : env.upsertFails st.upsertCalls = true) :
    persistAlertsModel env now alerts st =
      (.error "Failed to persist alerts",
       { st with trace := st.trace ++ [.upsertCalled alerts none]
                 upsertCalls := st.upsertCalls + 1 }) := by
  unfold persistAlertsModel
  rw [if_neg (by simpa using hA), if_pos hf]

theorem persistModel_ok (env : RunEnv) (now : Nat) (alerts : List Alert)
    (st : RunState) (hA : ¬ alerts = [])
    (hf : env.upsertFails st.upsertCalls = false) :
    persistAlertsModel env now alerts st =
      (.ok (),
       { st with store := (upsertAlerts now st.store alerts).1
                 trace := st.trace ++ [.upsertCalled alerts
                   (some (upsertAlerts now st.store alerts).2)]
                 upsertCalls := st.upsertCalls + 1 }) := by
  unfold persistAlertsModel
  rw [if_neg (by simpa using hA), if_neg (by simp [hf])]

theorem runDaily_ok_empty (env : RunEnv) (now : Nat) (st : RunState)
    (rules : List Rule) (hs : String)
    (hh : env.health = .ok hs) (hr : env.rules = .ok rules)
    (hA : evalLoop env rules = []) :
    runDailyExecute env now st =
      (.ok (), { stAfterRules st rules with
                 lastRunAlerts := [], lastRunAt := some now }) := by
  unfold runDailyExecute
  rw [hh, evaluateExecute_ok_empty env now st rules hr hA]
  dsimp only
  rw [persistModel_empty]

theorem runDaily_ok_nonempty (env : RunEnv) (now : Nat) (st : RunState)
    (rules : List Rule) (hs : String)
    (hh : env.health = .ok hs) (hr : env.rules = .ok rules)
    (hA : ¬ evalLoop env rules = [])
    (hf1 : env.upsertFails st.upsertCalls = false)
    (hf2 : env.upsertFails (st.upsertCalls + 1) = false) :
    runDailyExecute env now st =
      (.ok (),
       { store := (upsertAlerts now (upsertAlerts now st.store
           (evalLoop env rules)).1 (evalLoop env rules)).1
         trace := st.trace
           ++ rules.map (fun r => RunEvent.ruleEvaluated r.alertId)
           ++ [.upsertCalled (evalLoop env rules)
                (some (upsertAlerts now st.store (evalLoop env rules)).2)]
           ++ [.upsertCalled (evalLoop env rules)
                (some (upsertAlerts now (upsertAlerts now st.store
                  (evalLoop env rules)).1 (evalLoop env rules)).2)]
         upsertCalls := st.upsertCalls + 1 + 1
         lastRunAlerts := evalLoop env rules
         lastRunAt := some now }) := by
  unfold runDailyExecute
  rw [hh, evaluateExecute_ok_upsertOk env now st rules hr hA hf1]
  dsimp only
  rw [persistModel_ok env now _ _ hA hf2]

theorem runDaily_persistFail_afterOk (env : RunEnv) (now : Nat) (st : RunState)
    (rules : List Rule) (hs : String)
    (hh : env.health = .ok hs) (hr : env.rules = .ok rules)
    (hA : ¬ evalLoop env rules = [])
    (hf1 : env.upsertFails st.upsertCalls = false)
    (hf2 : env.upsertFails (st.upsertCalls + 1) = true) :
    runDailyExecute env now st =
      (.error "Failed to persist alerts",
       { store := (upsertAlerts now st.store (evalLoop env rules)).1
         trace := st.trace
           ++ rules.map (fun r => RunEvent.ruleEvaluated r.alertId)
           ++ [.upsertCalled (evalLoop env rules)
                (some (upsertAlerts now st.store (evalLoop env rules)).2)]
           ++ [.upsertCalled (evalLoop env rules) none]
         upsertCalls := st.upsertCalls + 1 + 1
         lastRunAlerts := st.lastRunAlerts
         lastRunAt := st.lastRunAt }) := by
  unfold runDailyExecute
  rw [hh, evaluateExecute_ok_upsertOk env now st rules hr hA hf1]
  dsimp only
  rw [persistModel_fail env now _ _ hA hf2]

theorem runDaily_bothUpsertsFail (env : RunEnv) (now : Nat) (st : RunState)
    (rules : List Rule) (hs : String)
    (hh : env.health = .ok hs) (hr : env.rules = .ok rules)
    (hA : ¬ evalLoop env rules = [])
    (hf1 : env.upsertFails st.upsertCalls = true)
    (hf2 : env.upsertFails (st.upsertCalls + 1) = true) :
    runDailyExecute env now st =
      (.error "Failed to persist alerts",
       { st with
         trace := st.trace
           ++ rules.map (fun r => RunEvent.ruleEvaluated r.alertId)
           ++ [.upsertCalled (evalLoop env rules) none]
           ++ [.upsertCalled (evalLoop env rules) none]
         upsertCalls := st.upsertCalls + 1 + 1 }) := by
  unfold runDailyExecute
  rw [hh, evaluateExecute_ok_upsertFail env now st rules hr hA hf1]
  dsimp only
  rw [persistModel_fail env now _ _ hA hf2]

theorem runDaily_evalFail_persistOk (env : RunEnv) (now : Nat) (st : RunState)
    (rules : List Rule) (hs : String)
    (hh : env.health = .ok hs) (hr : env.rules = .ok rules)
    (hA : ¬ evalLoop env rules = [])
    (hf1 : env.upsertFails st.upsertCalls = true)
    (hf2 : env.upsertFails (st.upsertCalls + 1) = false) :
    runDailyExecute env now st =
      (.ok (),
       { store := (upsertAlerts now st.store (evalLoop env rules)).1
         trace := st.trace
           ++ rules.map (fun r => RunEvent.ruleEvaluated r.alertId)
           ++ [.upsertCalled (evalLoop env rules) none]
           ++ [.upsertCalled (evalLoop env rules)
                (some (upsertAlerts now st.store (evalLoop env rules)).2)]
         upsertCalls := st.upsertCalls + 1 + 1
         lastRunAlerts := evalLoop env rules
         lastRunAt := some now }) := by
  unfold runDailyExecute
  rw [hh, evaluateExecute_ok_upsertFail env now st rules hr hA hf1]
  dsimp only
  rw [persistModel_ok env now _ _ hA hf2]

/-! ## Concrete run fixtures -/

/-- A triggering threshold rule (the docs' `base.expansion_high`). -/
def ruleGauge : Rule :=
  { alertId := "base.expansion_high", metricId := "delta.base_30d"
    level := .amber, type := "threshold", condition := "value >= 0.08"
    message := "msg", threshold := some (mkRat 8 100), window := none
    units := none, inputs := none, notes := none, minConsecutive := none
    trend := none }

/-- A rule referencing a missing metric. -/
def ruleBad : Rule :=
  { alertId := "r.bad", metricId := "missing.metric", level := .red
    type := "threshold", condition := "value >= 0.08", message := "msg"
    threshold := some (mkRat 8 100), window := none, units := none
    inputs := none, notes := none, minConsecutive := none, trend := none }

/-- Metric data that makes `ruleGauge` trigger (`0.1 ≥ 0.08`). -/
def mdGauge : MetricData := ⟨mkRat 1 10, "2025-01-15", none, none⟩

/-- A healthy environment with one triggering rule and no store failures. -/
def envOk : RunEnv :=
  ⟨.ok "healthy", .ok [ruleGauge], fun _ => .found mdGauge, fun _ => false⟩

/-- `envOk` with the evaluation-stage upsert (call 0) failing transiently. -/
def envEvalUpsertFails : RunEnv :=
  ⟨.ok "healthy", .ok [ruleGauge], fun _ => .found mdGauge,
   fun n => decide (n = 0)⟩

/-- `envOk` with the persist-stage upsert (call 1) failing. -/
def envPersistFail : RunEnv :=
  ⟨.ok "healthy", .ok [ruleGauge], fun _ => .found mdGauge,
   fun n => decide (n = 1)⟩

/-- Two rules, both fetches succeeding. -/
def envTwo : RunEnv :=
  ⟨.ok "healthy", .ok [ruleBad, ruleGauge], fun _ => .found mdGauge,
   fun _ => false⟩

/-- `envTwo` with `ruleBad`'s fetch failing. -/
def envTwoBad : RunEnv :=
  ⟨.ok "healthy", .ok [ruleBad, ruleGauge],
   fun ru => if ru = ruleBad then .fetchErr "ECONNREFUSED" else envTwo.fetch ru,
   fun _ => false⟩

/-- A fresh run state: empty store and trace, no prior run. -/
def st0 : RunState := ⟨[], [], 0, [], none⟩

/-- Number of Alert Store upsert calls recorded in a trace. -/
def countUpsertEvents (trace : List RunEvent) : Nat :=
  trace.countP (fun e => match e with
    | .upsertCalled _ _ => true
    | _ => false)

/-! ## C2 — batch persistence, once vs twice -/

/-- C2 counterexample: a successful run over one triggering rule invokes
the Alert Store upsert twice — once from `EvaluateAlertsUseCase.execute`
and once from `RunDailyAlertsUseCase.persistAlerts` — not at most once. -/
theorem upsert_twice_counterexample :
    (runDailyExecute envOk 5 st0).1 = .ok () ∧
    countUpsertEvents (runDailyExecute envOk 5 st0).2.trace = 2 := by
  refine ⟨by decide, by decide⟩

/-- The batch of a loaded rule set. -/
theorem alertsOf_ok (env : RunEnv) (rules : List Rule)
    (hr : env.rules = .ok rules) : alertsOf env = evalLoop env rules := by
  unfold alertsOf
  rw [hr]

/-- C2 (amended): in every run, the Alert Store upsert is invoked either
not at all or exactly twice — once by the evaluation use case and once by
the orchestrator's persist step — each time with the complete collected
batch, and always after all per-rule evaluation events (never streamed
per-rule); in a run that passes the health and rule-load gates and
produces a non-empty batch, the two calls do happen. -/
theorem batch_upsert_shape (env : RunEnv) (now : Nat) (st : RunState) :
    ∃ ruleEvts upsertEvts,
      (runDailyExecute env now st).2.trace = st.trace ++ ruleEvts ++ upsertEvts ∧
      (∀ e ∈ ruleEvts, ∃ id, e = RunEvent.ruleEvaluated id) ∧
      (upsertEvts = [] ∨
       ∃ res1 res2,
         upsertEvts = [RunEvent.upsertCalled (alertsOf env) res1,
                       RunEvent.upsertCalled (alertsOf env) res2]) ∧
      (∀ hs rules, env.health = .ok hs → env.rules = .ok rules →
        ¬ alertsOf env = [] → ¬ upsertEvts = []) := by
  cases hh : env.health with
  | error m =>
    refine ⟨[], [], ?_, by simp, .inl rfl, ?_⟩
    · rw [runDaily_healthFail env now st m hh]; simp
    · intro hs rules hH _ _
      exact Except.noConfusion hH
  | ok hs =>
    cases hr : env.rules with
    | error m =>
      refine ⟨[], [], ?_, by simp, .inl rfl, ?_⟩
      · rw [runDaily_rulesFail env now st m hs hh hr]; simp
      · intro hs' rules hH hR _
        exact Except.noConfusion hR
    | ok rules =>
      have hA := alertsOf_ok env rules hr
      by_cases hE : evalLoop env rules = []
      · refine ⟨rules.map (fun r => RunEvent.ruleEvaluated r.alertId), [], ?_,
          ?_, .inl rfl, ?_⟩
        · rw [runDaily_ok_empty env now st rules hs hh hr hE]
          simp [stAfterRules]
        · intro e he
          obtain ⟨r, _, hre⟩ := List.mem_map.1 he
          exact ⟨r.alertId, hre.symm⟩
        · intro hs' rules' _ _ hne
          rw [hA, hE] at hne
          exact absurd rfl hne
      · have hruleEvts : ∀ e ∈ rules.map (fun r => RunEvent.ruleEvaluated r.alertId),
            ∃ id, e = RunEvent.ruleEvaluated id := by
          intro e he
          obtain ⟨r, _, hre⟩ := List.mem_map.1 he
          exact ⟨r.alertId, hre.symm⟩
        cases hf1 : env.upsertFails st.upsertCalls with
        | false =>
          cases hf2 : env.upsertFails (st.upsertCalls + 1) with
          | false =>
            refine ⟨rules.map (fun r => RunEvent.ruleEvaluated r.alertId),
              [RunEvent.upsertCalled (alertsOf env)
                 (some (upsertAlerts now st.store (evalLoop env rules)).2),
               RunEvent.upsertCalled (alertsOf env)
                 (some (upsertAlerts now (upsertAlerts now st.store
                   (evalLoop env rules)).1 (evalLoop env rules)).2)],
              ?_, hruleEvts, .inr ⟨_, _, rfl⟩, fun _ _ _ _ _ => by simp⟩
            rw [runDaily_ok_nonempty env now st rules hs hh hr hE hf1 hf2, hA]
            simp [List.append_assoc]
          | true =>
            refine ⟨rules.map (fun r => RunEvent.ruleEvaluated r.alertId),
              [RunEvent.upsertCalled (alertsOf env)
                 (some (upsertAlerts now st.store (evalLoop env rules)).2),
               RunEvent.upsertCalled (alertsOf env) none],
              ?_, hruleEvts, .inr ⟨_, _, rfl⟩, fun _ _ _ _ _ => by simp⟩
            rw [runDaily_persistFail_afterOk env now st rules hs hh hr hE hf1 hf2, hA]
            simp [List.append_assoc]
        | true =>
          cases hf2 : env.upsertFails (st.upsertCalls + 1) with
          | false =>
            refine ⟨rules.map (fun r => RunEvent.ruleEvaluated r.alertId),
              [RunEvent.upsertCalled (alertsOf env) none,
               RunEvent.upsertCalled (alertsOf env)
                 (some (upsertAlerts now st.store (evalLoop env rules)).2)],
              ?_, hruleEvts, .inr ⟨_, _, rfl⟩, fun _ _ _ _ _ => by simp⟩
            rw [runDaily_evalFail_persistOk env now st rules hs hh hr hE hf1 hf2, hA]
            simp [List.append_assoc]
          | true =>
            refine ⟨rules.map (fun r => RunEvent.ruleEvaluated r.alertId),
              [RunEvent.upsertCalled (alertsOf env) none,
               RunEvent.upsertCalled (alertsOf env) none],
              ?_, hruleEvts, .inr ⟨_, _, rfl⟩, fun _ _ _ _ _ => by simp⟩
            rw [runDaily_bothUpsertsFail env now st rules hs hh hr hE hf1 hf2, hA]
            simp [List.append_assoc]

/-! ## C5 — the health gate -/

theorem evaluateRuleModel_fetch_congr (env env' : RunEnv)
    (hf : env'.fetch = env.fetch) :
    evaluateRuleModel env' = evaluateRuleModel env := by
  funext rule
  unfold evaluateRuleModel
  rw [hf]

theorem evalLoop_fetch_congr (env env' : RunEnv) (hf : env'.fetch = env.fetch)
    (rules : List Rule) : evalLoop env' rules = evalLoop env rules := by
  rw [evalLoop_eq_filterMap, evalLoop_eq_filterMap,
    evaluateRuleModel_fetch_congr env env' hf]

/-- `EvaluateAlertsUseCase.execute` never consults the health status. -/
theorem evaluateExecute_congr (env env' : RunEnv) (now : Nat) (st : RunState)
    (hr : env'.rules = env.rules) (hf : env'.fetch = env.fetch)
    (hu : env'.upsertFails = env.upsertFails) :
    evaluateAlertsExecute env' now st = evaluateAlertsExecute env now st := by
  unfold evaluateAlertsExecute
  simp only [hr, hu, evalLoop_fetch_congr env env' hf]

/-- `persistAlerts` never consults the health status. -/
theorem persistModel_congr (env env' : RunEnv) (now : Nat)
    (alerts : List Alert) (st : RunState)
    (hu : env'.upsertFails = env.upsertFails) :
    persistAlertsModel env' now alerts st = persistAlertsModel env now alerts st := by
  unfold persistAlertsModel
  rw [hu]

/-- C5: an erroring health probe aborts the run with a connectivity error
before anything else happens — the returned state is the input state, so
no rule was evaluated and no alert was upserted; a successful probe with
*any* status (healthy or degraded) leaves the run exactly as if the
status had been `healthy`: the run proceeds to evaluation. -/
theorem health_gate (env : RunEnv) (now : Nat) (st : RunState) :
    (∀ m, env.health = .error m →
      runDailyExecute env now st =
        (.error ("Metrics API is unreachable: " ++ m), st)) ∧
    (∀ s, env.health = .ok s →
      runDailyExecute env now st =
        runDailyExecute { env with health := .ok "healthy" } now st) := by
  constructor
  · intro m h
    exact runDaily_healthFail env now st m h
  · intro s h
    unfold runDailyExecute
    rw [h]
    have he : ∀ (n : Nat) (s' : RunState),
        evaluateAlertsExecute { env with health := .ok "healthy" } n s' =
          evaluateAlertsExecute env n s' :=
      fun n s' => evaluateExecute_congr env _ n s' rfl rfl rfl
    have hp : ∀ (n : Nat) (al : List Alert) (s' : RunState),
        persistAlertsModel { env with health := .ok "healthy" } n al s' =
          persistAlertsModel env n al s' :=
      fun n al s' => persistModel_congr env _ n al s' rfl
    simp only [he, hp]

/-- C5 witness: a concrete unreachable probe, and a concrete degraded
probe behaving exactly like a healthy one. -/
theorem health_gate_witness :
    (({ envOk with health := .error "ECONNREFUSED" } : RunEnv).health =
        .error "ECONNREFUSED" ∧
     runDailyExecute { envOk with health := .error "ECONNREFUSED" } 5 st0 =
       (.error ("Metrics API is unreachable: " ++ "ECONNREFUSED"), st0)) ∧
    (({ envOk with health := .ok "degraded" } : RunEnv).health = .ok "degraded" ∧
     runDailyExecute { envOk with health := .ok "degraded" } 5 st0 =
       runDailyExecute { { envOk with health := .ok "degraded" } with
         health := .ok "healthy" } 5 st0) :=
  ⟨⟨rfl, (health_gate { envOk with health := .error "ECONNREFUSED" } 5 st0).1
      "ECONNREFUSED" rfl⟩,
   ⟨rfl, (health_gate { envOk with health := .ok "degraded" } 5 st0).2
      "degraded" rfl⟩⟩

/-! ## C3 — persistence failure semantics -/

/-- A run that reports success has its whole batch in the store: success
requires the persist-stage upsert (the last store call) to have gone
through, and the upsert transaction is all-or-nothing, so no partial
batch can remain on failure. -/
theorem run_success_batch_persisted (env : RunEnv) (now : Nat) (st : RunState)
    (hok : (runDailyExecute env now st).1 = .ok ()) :
    ∀ a ∈ alertsOf env,
      alertKey a ∈ storeKeys (runDailyExecute env now st).2.store := by
  cases hh : env.health with
  | error m =>
    rw [runDaily_healthFail env now st m hh] at hok
    exact Except.noConfusion hok
  | ok hs =>
    cases hr : env.rules with
    | error m =>
      rw [runDaily_rulesFail env now st m hs hh hr] at hok
      exact Except.noConfusion hok
    | ok rules =>
      have hA := alertsOf_ok env rules hr
      by_cases hE : evalLoop env rules = []
      · intro a ha
        rw [hA, hE] at ha
        exact absurd ha (List.not_mem_nil a)
      · cases hf1 : env.upsertFails st.upsertCalls with
        | false =>
          cases hf2 : env.upsertFails (st.upsertCalls + 1) with
          | false =>
            rw [runDaily_ok_nonempty env now st rules hs hh hr hE hf1 hf2]
            intro a ha
            rw [hA] at ha
            exact mem_storeKeys_upsertLoop now (evalLoop env rules) _ 0 0 _
              (batch_mem_storeKeys_upsertLoop now (evalLoop env rules)
                st.store 0 0 a ha)
          | true =>
            rw [runDaily_persistFail_afterOk env now st rules hs hh hr hE hf1 hf2]
              at hok
            exact Except.noConfusion hok
        | true =>
          cases hf2 : env.upsertFails (st.upsertCalls + 1) with
          | false =>
            rw [runDaily_evalFail_persistOk env now st rules hs hh hr hE hf1 hf2]
            intro a ha
            rw [hA] at ha
            exact batch_mem_storeKeys_upsertLoop now (evalLoop env rules)
              st.store 0 0 a ha
          | true =>
            rw [runDaily_bothUpsertsFail env now st rules hs hh hr hE hf1 hf2]
              at hok
            exact Except.noConfusion hok

/-- C3 counterexample: when the evaluation-stage upsert fails transiently
(call 0 fails, call 1 succeeds), an Alert Store upsert *has* failed
during the run — the trace records a failed call — yet the run reports
success, because `EvaluateAlertsUseCase.execute` catches and only logs
its upsert failure and the orchestrator's `persistAlerts` retry of the
same batch succeeds. -/
theorem upsertFail_run_succeeds_counterexample :
    (runDailyExecute envEvalUpsertFails 5 st0).1 = .ok () ∧
    RunEvent.upsertCalled (alertsOf envEvalUpsertFails) none ∈
      (runDailyExecute envEvalUpsertFails 5 st0).2.trace := by
  refine ⟨by decide, by decide⟩

/-- C3 (amended): a run that reports success always has its full alert
batch persisted (never unpersisted or partially persisted — the upsert
transaction is all-or-nothing), and a failure of the *persist-stage*
upsert is surfaced: the run returns the persistence error to the caller.
An upsert failure inside the evaluation stage alone is caught and logged;
the run still succeeds if the persist-stage retry of the same batch
succeeds. -/
theorem persistence_failure_surfaced (env : RunEnv) (now : Nat) (st : RunState) :
    ((runDailyExecute env now st).1 = .ok () →
      ∀ a ∈ alertsOf env,
        alertKey a ∈ storeKeys (runDailyExecute env now st).2.store) ∧
    (∀ rules hs, env.health = .ok hs → env.rules = .ok rules →
      ¬ evalLoop env rules = [] →
      env.upsertFails (st.upsertCalls + 1) = true →
      (runDailyExecute env now st).1 = .error "Failed to persist alerts") := by
  constructor
  · exact run_success_batch_persisted env now st
  · intro rules hs hh hr hE hf2
    cases hf1 : env.upsertFails st.upsertCalls with
    | false => rw [runDaily_persistFail_afterOk env now st rules hs hh hr hE hf1 hf2]
    | true => rw [runDaily_bothUpsertsFail env now st rules hs hh hr hE hf1 hf2]

/-- C3 witness: the success conjunct at a clean run, and the
persist-stage-failure conjunct at a run whose second store call fails. -/
theorem persistence_failure_surfaced_witness :
    ((runDailyExecute envOk 5 st0).1 = .ok () ∧
     ∀ a ∈ alertsOf envOk,
       alertKey a ∈ storeKeys (runDailyExecute envOk 5 st0).2.store) ∧
    ((envPersistFail.health = .ok "healthy" ∧
      envPersistFail.rules = .ok [ruleGauge] ∧
      ¬ evalLoop envPersistFail [ruleGauge] = [] ∧
      envPersistFail.upsertFails (st0.upsertCalls + 1) = true) ∧
     (runDailyExecute envPersistFail 5 st0).1 =
       .error "Failed to persist alerts") :=
  ⟨⟨by decide, (persistence_failure_surfaced envOk 5 st0).1 (by decide)⟩,
   ⟨⟨rfl, rfl, by decide, by decide⟩,
    (persistence_failure_surfaced envPersistFail 5 st0).2 [ruleGauge] "healthy"
      rfl rfl (by decide) (by decide)⟩⟩

/-! ## C4 — effects of fatal aborts -/

/-- C4 counterexample: a run whose persist-stage upsert fails aborts
fatally with the persistence error, yet the Alert Store is *not*
untouched — the evaluation-stage upsert of the same batch already
succeeded (store call 0), so a row of this run exists even though the run
failed. -/
theorem fatal_abort_store_counterexample :
    (runDailyExecute envPersistFail 5 st0).1 = .error "Failed to persist alerts" ∧
    st0.store = [] ∧
    (runDailyExecute envPersistFail 5 st0).2.store ≠ [] := by
  refine ⟨by decide, rfl, by decide⟩

/-- C4 (amended): a run aborting at the health gate or at rule loading
returns with the state — store, trace, last-run summary — completely
unchanged; *no* fatally aborting run updates the last-run summary; a run
aborting at the persist stage leaves the store exactly as the evaluation
stage left it (the failed persist transaction itself wrote nothing), but
when the evaluation-stage upsert succeeded the run's rows are already in
the store, so a persist-stage abort does not leave the store untouched. -/
theorem fatal_abort_effects (env : RunEnv) (now : Nat) (st : RunState) :
    (∀ m, env.health = .error m →
      runDailyExecute env now st =
        (.error ("Metrics API is unreachable: " ++ m), st)) ∧
    (∀ m hs, env.health = .ok hs → env.rules = .error m →
      runDailyExecute env now st = (.error m, st)) ∧
    (∀ m, (runDailyExecute env now st).1 = .error m →
      (runDailyExecute env now st).2.lastRunAt = st.lastRunAt ∧
      (runDailyExecute env now st).2.lastRunAlerts = st.lastRunAlerts) ∧
    (∀ rules hs, env.health = .ok hs → env.rules = .ok rules →
      ¬ evalLoop env rules = [] →
      env.upsertFails st.upsertCalls = false →
      env.upsertFails (st.upsertCalls + 1) = true →
      (runDailyExecute env now st).2.store =
        (upsertAlerts now st.store (evalLoop env rules)).1) := by
  refine ⟨fun m h => runDaily_healthFail env now st m h,
    fun m hs hh hr => runDaily_rulesFail env now st m hs hh hr, ?_, ?_⟩
  · intro m herr
    cases hh : env.health with
    | error m' =>
      rw [runDaily_healthFail env now st m' hh]
      exact ⟨rfl, rfl⟩
    | ok hs =>
      cases hr : env.rules with
      | error m' =>
        rw [runDaily_rulesFail env now st m' hs hh hr]
        exact ⟨rfl, rfl⟩
      | ok rules =>
        by_cases hE : evalLoop env rules = []
        · rw [runDaily_ok_empty env now st rules hs hh hr hE] at herr
          exact Except.noConfusion herr
        · cases hf1 : env.upsertFails st.upsertCalls with
          | false =>
            cases hf2 : env.upsertFails (st.upsertCalls + 1) with
            | false =>
              rw [runDaily_ok_nonempty env now st rules hs hh hr hE hf1 hf2]
                at herr
              exact Except.noConfusion herr
            | true =>
              rw [runDaily_persistFail_afterOk env now st rules hs hh hr hE hf1 hf2]
              exact ⟨rfl, rfl⟩
          | true =>
            cases hf2 : env.upsertFails (st.upsertCalls + 1) with
            | false =>
              rw [runDaily_evalFail_persistOk env now st rules hs hh hr hE hf1 hf2]
                at herr
              exact Except.noConfusion herr
            | true =>
              rw [runDaily_bothUpsertsFail env now st rules hs hh hr hE hf1 hf2]
              exact ⟨rfl, rfl⟩
  · intro rules hs hh hr hE hf1 hf2
    rw [runDaily_persistFail_afterOk env now st rules hs hh hr hE hf1 hf2]

/-- C4 witness: instantiations of all four conjuncts — an unreachable
probe, a failed rule load, the unchanged last-run summary under a
persistence abort, and the store content after that abort. -/
theorem fatal_abort_effects_witness :
    (({ envOk with health := .error "down" } : RunEnv).health = .error "down" ∧
     runDailyExecute { envOk with health := .error "down" } 5 st0 =
       (.error ("Metrics API is unreachable: " ++ "down"), st0)) ∧
    (({ envOk with rules := .error "relation does not exist" } : RunEnv).rules =
        .error "relation does not exist" ∧
     runDailyExecute { envOk with rules := .error "relation does not exist" } 5 st0 =
       (.error "relation does not exist", st0)) ∧
    ((runDailyExecute envPersistFail 5 st0).1 = .error "Failed to persist alerts" ∧
     (runDailyExecute envPersistFail 5 st0).2.lastRunAt = st0.lastRunAt ∧
     (runDailyExecute envPersistFail 5 st0).2.lastRunAlerts = st0.lastRunAlerts) ∧
    (runDailyExecute envPersistFail 5 st0).2.store =
      (upsertAlerts 5 st0.store (evalLoop envPersistFail [ruleGauge])).1 :=
  ⟨⟨rfl, (fatal_abort_effects { envOk with health := .error "down" } 5 st0).1
      "down" rfl⟩,
   ⟨rfl, (fatal_abort_effects { envOk with rules := .error "relation does not exist" }
      5 st0).2.1 "relation does not exist" "healthy" rfl rfl⟩,
   ⟨by decide, (fatal_abort_effects envPersistFail 5 st0).2.2.1
      "Failed to persist alerts" (by decide)⟩,
   (fatal_abort_effects envPersistFail 5 st0).2.2.2 [ruleGauge] "healthy"
     rfl rfl (by decide) (by decide) (by decide)⟩

/-! ## C6 — per-rule isolation -/

/-- C6: the collected batch is the per-rule filter-map of the rule list —
each rule contributes through its own evaluation only.  If one rule's
fetch throws or returns no data, that rule contributes no alert while
every other rule contributes exactly what it would have contributed
anyway, and on a successful run all collected alerts are in the store. -/
theorem per_rule_isolation (env : RunEnv) (rules : List Rule) (now : Nat)
    (st : RunState) (hr : env.rules = .ok rules) :
    (alertsOf env = rules.filterMap (evaluateRuleModel env)) ∧
    (∀ (env' : RunEnv) (r : Rule) (msg : String),
      env'.rules = .ok rules →
      (∀ ru, ru ≠ r → env'.fetch ru = env.fetch ru) →
      (env'.fetch r = .fetchErr msg ∨ env'.fetch r = .noData) →
      alertsOf env' = rules.filterMap
        (fun ru => if ru = r then none else evaluateRuleModel env ru)) ∧
    ((runDailyExecute env now st).1 = .ok () →
      ∀ a ∈ alertsOf env,
        alertKey a ∈ storeKeys (runDailyExecute env now st).2.store) := by
  refine ⟨?_, ?_, run_success_batch_persisted env now st⟩
  · rw [alertsOf_ok env rules hr, evalLoop_eq_filterMap]
  · intro env' r msg hr' hagree hfail
    rw [alertsOf_ok env' rules hr', evalLoop_eq_filterMap]
    refine List.filterMap_congr fun ru _ => ?_
    by_cases hru : ru = r
    · subst hru
      rw [if_pos rfl]
      unfold evaluateRuleModel
      rcases hfail with hf | hf <;> rw [hf]
    · rw [if_neg hru]
      unfold evaluateRuleModel
      rw [hagree ru hru]

/-- C6 witness: with two rules, making the first rule's fetch fail leaves
exactly the second rule's alert, and the clean two-rule run persists what
it collected. -/
theorem per_rule_isolation_witness :
    (envTwo.rules = .ok [ruleBad, ruleGauge] ∧
     envTwoBad.rules = .ok [ruleBad, ruleGauge] ∧
     envTwoBad.fetch ruleBad = .fetchErr "ECONNREFUSED") ∧
    alertsOf envTwoBad = [ruleBad, ruleGauge].filterMap
      (fun ru => if ru = ruleBad then none else evaluateRuleModel envTwo ru) ∧
    ((runDailyExecute envTwo 5 st0).1 = .ok () ∧
     ∀ a ∈ alertsOf envTwo,
       alertKey a ∈ storeKeys (runDailyExecute envTwo 5 st0).2.store) :=
  ⟨⟨rfl, rfl, by decide⟩,
   (per_rule_isolation envTwo [ruleBad, ruleGauge] 5 st0 rfl).2.1 envTwoBad
     ruleBad "ECONNREFUSED" rfl
     (fun ru hne => if_neg hne)
     (.inl (by decide)),
   ⟨by decide,
    (per_rule_isolation envTwo [ruleBad, ruleGauge] 5 st0 rfl).2.2 (by decide)⟩⟩

/-! ## C1 — dedup upsert and idempotent re-runs -/

theorem storeKeys_map_applyBatch (now : Nat) (batch : List Alert)
    (s : List StoredAlert) :
    storeKeys (s.map (applyBatch now batch)) = storeKeys s := by
  unfold storeKeys
  rw [List.map_map]
  refine List.map_congr_left fun r _ => ?_
  simp only [Function.comp]
  exact rowKey_applyBatch ..

/-- C1: (i) the batch upsert preserves uniqueness of `(alertId, ts)`
keys; (ii) re-submitting an alert whose key already exists updates the
matching row's level/message/payload in place (refreshing the audit
timestamp) and never adds a row — the key set is unchanged; (iii) running
the orchestrator twice against an unchanged environment reports, on the
second run, `inserted = 0` and `updated = count(first-run alerts)` on
each of its store calls, and leaves the stored rows identical to the
first run's up to the refreshed audit timestamp. -/
theorem dedup_upsert_idempotent_runs :
    (∀ (now : Nat) (s : List StoredAlert) (batch : List Alert),
       UniqueKeys s → UniqueKeys (upsertAlerts now s batch).1) ∧
    (∀ (now : Nat) (s : List StoredAlert) (a : Alert),
       UniqueKeys s → alertKey a ∈ storeKeys s →
       upsertAlerts now s [a] = (s.map (applyAlert now a), ⟨0, 1⟩) ∧
       storeKeys (s.map (applyAlert now a)) = storeKeys s) ∧
    (∀ (env : RunEnv) (rules : List Rule) (hs : String) (st : RunState)
       (now1 now2 : Nat),
       env.health = .ok hs → env.rules = .ok rules →
       (∀ n, env.upsertFails n = false) → UniqueKeys st.store →
       (runDailyExecute env now2 (runDailyExecute env now1 st).2).1 = .ok () ∧
       storeData (runDailyExecute env now2
           (runDailyExecute env now1 st).2).2.store =
         storeData (runDailyExecute env now1 st).2.store ∧
       (runDailyExecute env now2 (runDailyExecute env now1 st).2).2.trace =
         (runDailyExecute env now1 st).2.trace
           ++ rules.map (fun r => RunEvent.ruleEvaluated r.alertId)
           ++ (if evalLoop env rules = [] then []
               else [RunEvent.upsertCalled (evalLoop env rules)
                       (some ⟨0, (evalLoop env rules).length⟩),
                     RunEvent.upsertCalled (evalLoop env rules)
                       (some ⟨0, (evalLoop env rules).length⟩)])) := by
  refine ⟨uniqueKeys_upsertAlerts, ?_, ?_⟩
  · intro now s a hnd hmem
    refine ⟨?_, storeKeys_map_applyAlert now a s⟩
    show upsertLoop now s [a] 0 0 = _
    rw [upsertLoop, upsertOne_mem now a s hnd hmem]
    rfl
  · intro env rules hs st now1 now2 hh hr hup hnd
    by_cases hE : evalLoop env rules = []
    · rw [runDaily_ok_empty env now1 st rules hs hh hr hE,
          runDaily_ok_empty env now2 _ rules hs hh hr hE]
      refine ⟨rfl, rfl, ?_⟩
      rw [if_pos hE]
      simp [stAfterRules]
    · have hfz : ∀ n, env.upsertFails n = false := hup
      rw [runDaily_ok_nonempty env now1 st rules hs hh hr hE (hfz _) (hfz _),
          runDaily_ok_nonempty env now2 _ rules hs hh hr hE (hfz _) (hfz _)]
      have hndA : UniqueKeys (upsertAlerts now1 st.store (evalLoop env rules)).1 :=
        uniqueKeys_upsertAlerts now1 st.store _ hnd
      have hmem_sA : ∀ a ∈ evalLoop env rules,
          alertKey a ∈ storeKeys (upsertAlerts now1 st.store (evalLoop env rules)).1 :=
        fun a ha => batch_mem_storeKeys_upsertLoop now1 _ st.store 0 0 a ha
      have hS1 := upsertAlerts_all_mem now1
        (upsertAlerts now1 st.store (evalLoop env rules)).1 (evalLoop env rules)
        hndA hmem_sA
      have hndS1 : UniqueKeys (upsertAlerts now1
          (upsertAlerts now1 st.store (evalLoop env rules)).1
          (evalLoop env rules)).1 :=
        uniqueKeys_upsertAlerts now1 _ _ hndA
      have hmemS1 : ∀ a ∈ evalLoop env rules,
          alertKey a ∈ storeKeys (upsertAlerts now1
            (upsertAlerts now1 st.store (evalLoop env rules)).1
            (evalLoop env rules)).1 := by
        intro a ha
        rw [hS1]
        show alertKey a ∈ storeKeys (List.map _ _)
        rw [storeKeys_map_applyBatch]
        exact hmem_sA a ha
      have h2a := upsertAlerts_all_mem now2
        (upsertAlerts now1 (upsertAlerts now1 st.store (evalLoop env rules)).1
          (evalLoop env rules)).1
        (evalLoop env rules) hndS1 hmemS1
      have hndS2a : UniqueKeys ((upsertAlerts now1
          (upsertAlerts now1 st.store (evalLoop env rules)).1
          (evalLoop env rules)).1.map (applyBatch now2 (evalLoop env rules))) := by
        unfold UniqueKeys
        rw [storeKeys_map_applyBatch]
        exact hndS1
      have hmemS2a : ∀ a ∈ evalLoop env rules,
          alertKey a ∈ storeKeys ((upsertAlerts now1
            (upsertAlerts now1 st.store (evalLoop env rules)).1
            (evalLoop env rules)).1.map (applyBatch now2 (evalLoop env rules))) := by
        intro a ha
        rw [storeKeys_map_applyBatch]
        exact hmemS1 a ha
      have h2b := upsertAlerts_all_mem now2
        ((upsertAlerts now1 (upsertAlerts now1 st.store (evalLoop env rules)).1
          (evalLoop env rules)).1.map (applyBatch now2 (evalLoop env rules)))
        (evalLoop env rules) hndS2a hmemS2a
      refine ⟨rfl, ?_, ?_⟩
      · show storeData (upsertAlerts now2 (upsertAlerts now2
            (upsertAlerts now1 (upsertAlerts now1 st.store (evalLoop env rules)).1
              (evalLoop env rules)).1 (evalLoop env rules)).1
            (evalLoop env rules)).1 = _
        rw [h2a, h2b]
        show storeData (((upsertAlerts now1 (upsertAlerts now1 st.store
            (evalLoop env rules)).1 (evalLoop env rules)).1.map
            (applyBatch now2 (evalLoop env rules))).map
            (applyBatch now2 (evalLoop env rules))) = _
        rw [hS1]
        show storeData ((((upsertAlerts now1 st.store (evalLoop env rules)).1.map
            (applyBatch now1 (evalLoop env rules))).map
            (applyBatch now2 (evalLoop env rules))).map
            (applyBatch now2 (evalLoop env rules))) = _
        rw [storeData_map_applyBatch_twice now2 now2 (evalLoop env rules),
            storeData_map_applyBatch_twice now1 now2 (evalLoop env rules)]
      · rw [if_neg hE]
        show _ ++ [RunEvent.upsertCalled _ (some (upsertAlerts now2
            (upsertAlerts now1 (upsertAlerts now1 st.store (evalLoop env rules)).1
              (evalLoop env rules)).1 (evalLoop env rules)).2)]
            ++ [RunEvent.upsertCalled _ (some (upsertAlerts now2 (upsertAlerts now2
            (upsertAlerts now1 (upsertAlerts now1 st.store (evalLoop env rules)).1
              (evalLoop env rules)).1 (evalLoop env rules)).1
            (evalLoop env rules)).2)] = _
        rw [h2a]
        show _ ++ _ ++ [RunEvent.upsertCalled _ (some (upsertAlerts now2
            ((upsertAlerts now1 (upsertAlerts now1 st.store (evalLoop env rules)).1
              (evalLoop env rules)).1.map (applyBatch now2 (evalLoop env rules)))
            (evalLoop env rules)).2)] = _
        rw [h2b]
        simp [List.append_assoc]

/-- The alert `envOk`'s run produces. -/
def alertGauge : Alert :=
  ⟨"base.expansion_high", "2025-01-15", .amber, "msg",
   RuleEvaluator.buildEnrichedPayload (mkRat 1 10) ruleGauge
     ⟨some "2025-01-15", none⟩⟩

/-- A pre-existing row with `alertGauge`'s dedup key but older content. -/
def storedOld : StoredAlert :=
  ⟨"base.expansion_high", "2025-01-15", .green, "old message",
   alertGauge.payload, 3⟩

/-- C1 witness: an in-place update of an existing key, and a concrete
double run of the orchestrator. -/
theorem dedup_upsert_idempotent_runs_witness :
    (UniqueKeys [storedOld] ∧ alertKey alertGauge ∈ storeKeys [storedOld] ∧
     (upsertAlerts 9 [storedOld] [alertGauge] =
        ([storedOld].map (applyAlert 9 alertGauge), ⟨0, 1⟩) ∧
      storeKeys ([storedOld].map (applyAlert 9 alertGauge)) =
        storeKeys [storedOld])) ∧
    (envOk.health = .ok "healthy" ∧ envOk.rules = .ok [ruleGauge] ∧
     (∀ n, envOk.upsertFails n = false) ∧ UniqueKeys st0.store ∧
     ((runDailyExecute envOk 7 (runDailyExecute envOk 5 st0).2).1 = .ok () ∧
      storeData (runDailyExecute envOk 7
          (runDailyExecute envOk 5 st0).2).2.store =
        storeData (runDailyExecute envOk 5 st0).2.store ∧
      (runDailyExecute envOk 7 (runDailyExecute envOk 5 st0).2).2.trace =
        (runDailyExecute envOk 5 st0).2.trace
          ++ [ruleGauge].map (fun r => RunEvent.ruleEvaluated r.alertId)
          ++ (if evalLoop envOk [ruleGauge] = [] then []
              else [RunEvent.upsertCalled (evalLoop envOk [ruleGauge])
                      (some ⟨0, (evalLoop envOk [ruleGauge]).length⟩),
                    RunEvent.upsertCalled (evalLoop envOk [ruleGauge])
                      (some ⟨0, (evalLoop envOk [ruleGauge]).length⟩)]))) :=
  ⟨⟨by decide, by decide,
    dedup_upsert_idempotent_runs.2.1 9 [storedOld] alertGauge
      (by decide) (by decide)⟩,
   ⟨rfl, rfl, fun _ => rfl, by decide,
    dedup_upsert_idempotent_runs.2.2 envOk [ruleGauge] "healthy" st0 5 7
      rfl rfl (fun _ => rfl) (by decide)⟩⟩

/-! ## C7 — general band semantics

The claim quantifies over band rules whose condition has the canonical
shape `<lower> < value AND value <= <upper>`.  `DecNum` is the class of
unsigned decimal numerals (`\d+\.?\d*` with a digit after the dot when a
dot is present — every numeral of the repository's rules), `render` its
spelling inside a condition string, and `val` the rational it denotes. -/

/-- An unsigned decimal numeral: at least one integer digit, optionally a
dot followed by fraction digits. -/
structure DecNum where
  firstDigit : Char
  restDigits : List Char
  frac : Option (List Char)
  firstDigit_digit : firstDigit.isDigit = true
  restDigits_digits : restDigits.all Char.isDigit = true
  frac_digits : (frac.getD []).all Char.isDigit = true

/-- The numeral's spelling. -/
def DecNum.render (n : DecNum) : List Char :=
  match n.frac with
  | some f => n.firstDigit :: n.restDigits ++ ('.' :: f)
  | none => n.firstDigit :: n.restDigits

/-- The rational the numeral denotes: integer digits plus scaled
fraction digits. -/
def DecNum.val (n : DecNum) : ℚ :=
  decToRat 1 (n.firstDigit :: n.restDigits) (n.frac.getD []) 0

theorem render_eq_cons (n : DecNum) : ∃ t, n.render = n.firstDigit :: t := by
  unfold DecNum.render
  rcases n.frac with _ | f
  · exact ⟨n.restDigits, rfl⟩
  · exact ⟨n.restDigits ++ ('.' :: f), rfl⟩

theorem render_chars (n : DecNum) :
    ∀ c ∈ n.render, c.isDigit = true ∨ c = '.' := by
  intro c hc
  have hrest := n.restDigits_digits
  have hfrac := n.frac_digits
  rw [List.all_eq_true] at hrest hfrac
  unfold DecNum.render at hc
  rcases hf : n.frac with _ | f
  · rw [hf] at hc
    rcases List.mem_cons.1 hc with rfl | hm
    · exact .inl n.firstDigit_digit
    · exact .inl (hrest c hm)
  · rw [hf] at hc hfrac
    rcases List.mem_cons.1 hc with rfl | hm
    · exact .inl n.firstDigit_digit
    · rcases List.mem_append.1 hm with hm' | hm'
      · exact .inl (hrest c hm')
      · rcases List.mem_cons.1 hm' with rfl | hm''
        · exact .inr rfl
        · exact .inl (hfrac c hm'')

theorem digit_not_space {c : Char} (h : c.isDigit = true) :
    jsIsSpace c = false := by
  have h1 : c ≠ ' ' := fun he => absurd h (by rw [he]; decide)
  have h2 : c ≠ '\t' := fun he => absurd h (by rw [he]; decide)
  have h3 : c ≠ '\n' := fun he => absurd h (by rw [he]; decide)
  have h4 : c ≠ '\r' := fun he => absurd h (by rw [he]; decide)
  simp [jsIsSpace, h1, h2, h3, h4]

theorem digit_ne_dot {c : Char} (h : c.isDigit = true) : c ≠ '.' :=
  fun he => absurd h (by rw [he]; decide)

theorem digit_ne_A {c : Char} (h : c.isDigit = true) : c ≠ 'A' :=
  fun he => absurd h (by rw [he]; decide)

theorem digit_ne_dash {c : Char} (h : c.isDigit = true) : c ≠ '-' :=
  fun he => absurd h (by rw [he]; decide)

theorem digit_ne_plus {c : Char} (h : c.isDigit = true) : c ≠ '+' :=
  fun he => absurd h (by rw [he]; decide)

theorem render_ne_A (n : DecNum) : ∀ c ∈ n.render, c ≠ 'A' := by
  intro c hc
  rcases render_chars n c hc with h | h
  · exact digit_ne_A h
  · rw [h]; decide

theorem takeWhile_digits_append (x rest : List Char)
    (hx : x.all Char.isDigit = true)
    (hrest : ∀ c, rest.head? = some c → c.isDigit = false) :
    (x ++ rest).takeWhile Char.isDigit = x ∧
    (x ++ rest).dropWhile Char.isDigit = rest := by
  induction x with
  | nil =>
    rw [List.nil_append]
    cases rest with
    | nil => exact ⟨rfl, rfl⟩
    | cons c cs =>
      have hc := hrest c rfl
      rw [List.takeWhile_cons, List.dropWhile_cons, hc]
      exact ⟨rfl, rfl⟩
  | cons d ds ih =>
    rw [List.all_cons, Bool.and_eq_true] at hx
    obtain ⟨htake, hdrop⟩ := ih hx.2
    rw [List.cons_append, List.takeWhile_cons, List.dropWhile_cons, hx.1]
    exact ⟨by simp [htake], by simp [hdrop]⟩

/-- The greedy capture group reads exactly a rendered numeral when the
following character is neither a digit nor a dot. -/
theorem matchNum_render (n : DecNum) (rest : List Char)
    (hrest : ∀ c, rest.head? = some c → (c.isDigit = false ∧ c ≠ '.')) :
    matchNum (n.render ++ rest) = some (n.render, rest) := by
  have hall : (n.firstDigit :: n.restDigits).all Char.isDigit = true := by
    rw [List.all_cons, Bool.and_eq_true]
    exact ⟨n.firstDigit_digit, n.restDigits_digits⟩
  unfold DecNum.render matchNum
  rcases hf : n.frac with _ | fr
  · obtain ⟨htake, hdrop⟩ := takeWhile_digits_append (n.firstDigit :: n.restDigits)
      rest hall (fun c hc => (hrest c hc).1)
    dsimp only
    rw [htake, hdrop, if_neg (by simp)]
    cases rest with
    | nil => rfl
    | cons c cs =>
      have hc := hrest c rfl
      split
      · rename_i r2 heq
        rw [List.cons.injEq] at heq
        exact absurd heq.1 hc.2
      · rfl
  · have hfr : fr.all Char.isDigit = true := by
      have := n.frac_digits
      rw [hf] at this
      exact this
    have harr : (n.firstDigit :: n.restDigits ++ ('.' :: fr)) ++ rest =
        (n.firstDigit :: n.restDigits) ++ ('.' :: (fr ++ rest)) := by
      simp
    rw [harr]
    obtain ⟨htake, hdrop⟩ := takeWhile_digits_append (n.firstDigit :: n.restDigits)
      ('.' :: (fr ++ rest)) hall (fun c hc => by cases hc; decide)
    obtain ⟨htake2, hdrop2⟩ := takeWhile_digits_append fr rest hfr
      (fun c hc => (hrest c hc).1)
    dsimp only
    rw [htake, hdrop, if_neg (by simp)]
    simp [htake2, hdrop2]

/-- The literal tail of a canonical lower band part: `" < value"`. -/
def ltValue : List Char := [' ', '<', ' ', 'v', 'a', 'l', 'u', 'e']

/-- The literal head of a canonical upper band part: `"value <= "`. -/
def valueLe : List Char := ['v', 'a', 'l', 'u', 'e', ' ', '<', '=', ' ']

theorem dropWhile_of_head_false {p : Char → Bool} (l : List Char)
    (h : ∀ c, l.head? = some c → p c = false) : l.dropWhile p = l := by
  cases l with
  | nil => rfl
  | cons c cs =>
    rw [List.dropWhile_cons, h c rfl]
    simp

theorem dropWhile_space_render (n : DecNum) :
    n.render.dropWhile jsIsSpace = n.render := by
  refine dropWhile_of_head_false n.render fun c hc => ?_
  obtain ⟨t, ht⟩ := render_eq_cons n
  rw [ht] at hc
  cases hc
  exact digit_not_space n.firstDigit_digit

/-- The lower regular expression matches a rendered numeral followed by
`" < value"` at position 0, capturing the numeral. -/
theorem matchLowerAt_render (n : DecNum) :
    matchLowerAt (n.render ++ ltValue) = some n.render := by
  unfold matchLowerAt
  rw [matchNum_render n ltValue (fun c hc => by cases hc; exact ⟨by decide, by decide⟩)]
  rfl

theorem searchLower_eq_of_matchAt (c : Char) (cs cap : List Char)
    (h : matchLowerAt (c :: cs) = some cap) :
    searchLower (c :: cs) = some cap := by
  show (match matchLowerAt (c :: cs) with
        | some cap => some cap
        | none => searchLower cs) = some cap
  rw [h]

/-- The unanchored lower-bound search on a canonical lower part returns
the numeral. -/
theorem searchLower_render (n : DecNum) :
    searchLower (n.render ++ ltValue) = some n.render := by
  obtain ⟨t, ht⟩ := render_eq_cons n
  have h := matchLowerAt_render n
  rw [ht, List.cons_append] at h ⊢
  exact searchLower_eq_of_matchAt _ _ _ h

/-- The upper regular expression matches `"value <= "` followed by a
rendered numeral at position 0, capturing the numeral. -/
theorem matchUpperAt_render (n : DecNum) :
    matchUpperAt (valueLe ++ n.render) = some n.render := by
  have hstep : matchUpperAt (valueLe ++ n.render) =
      (matchNum (n.render.dropWhile jsIsSpace)).map Prod.fst := rfl
  rw [hstep, dropWhile_space_render]
  have hnum := matchNum_render n [] (fun c hc => by simp at hc)
  rw [List.append_nil] at hnum
  rw [hnum]
  rfl

theorem searchUpper_eq_of_matchAt (c : Char) (cs cap : List Char)
    (h : matchUpperAt (c :: cs) = some cap) :
    searchUpper (c :: cs) = some cap := by
  show (match matchUpperAt (c :: cs) with
        | some cap => some cap
        | none => searchUpper cs) = some cap
  rw [h]

/-- The unanchored upper-bound search on a canonical upper part returns
the numeral. -/
theorem searchUpper_render (n : DecNum) :
    searchUpper (valueLe ++ n.render) = some n.render := by
  exact searchUpper_eq_of_matchAt _ _ _ (matchUpperAt_render n)

theorem takeWhile_digits_all (x : List Char) (hx : x.all Char.isDigit = true) :
    x.takeWhile Char.isDigit = x ∧ x.dropWhile Char.isDigit = [] := by
  have h := takeWhile_digits_append x [] hx (fun c hc => by simp at hc)
  rwa [List.append_nil] at h

theorem jsReadSign_render (n : DecNum) : jsReadSign n.render = (1, n.render) := by
  obtain ⟨t, ht⟩ := render_eq_cons n
  rw [ht, jsReadSign.eq_def]
  split
  · rename_i r heq
    rw [List.cons.injEq] at heq
    exact absurd heq.1 (digit_ne_dash n.firstDigit_digit)
  · rename_i r heq
    rw [List.cons.injEq] at heq
    exact absurd heq.1 (digit_ne_plus n.firstDigit_digit)
  · rfl

/-- `parseFloat` reads a rendered numeral back to the value it denotes. -/
theorem jsParseFloat_render (n : DecNum) : jsParseFloat n.render = some n.val := by
  unfold jsParseFloat
  dsimp only
  rw [dropWhile_space_render, jsReadSign_render]
  dsimp only
  have hall : (n.firstDigit :: n.restDigits).all Char.isDigit = true := by
    rw [List.all_cons, Bool.and_eq_true]
    exact ⟨n.firstDigit_digit, n.restDigits_digits⟩
  rcases hf : n.frac with _ | fr
  · have hrender : n.render = n.firstDigit :: n.restDigits := by
      unfold DecNum.render
      rw [hf]
    obtain ⟨htake, hdrop⟩ := takeWhile_digits_all _ hall
    rw [hrender, htake, hdrop]
    rw [if_neg (by simp)]
    unfold DecNum.val
    rw [hf]
    rfl
  · have hfr : fr.all Char.isDigit = true := by
      have h := n.frac_digits
      rwa [hf] at h
    have hrender : n.render =
        (n.firstDigit :: n.restDigits) ++ ('.' :: fr) := by
      unfold DecNum.render
      rw [hf]
    obtain ⟨htake, hdrop⟩ := takeWhile_digits_append
      (n.firstDigit :: n.restDigits) ('.' :: fr) hall
      (fun c hc => by cases hc; decide)
    obtain ⟨htake2, hdrop2⟩ := takeWhile_digits_all fr hfr
    rw [hrender, htake, hdrop]
    show (if ((n.firstDigit :: n.restDigits).isEmpty &&
        (fr.takeWhile Char.isDigit).isEmpty) = true then none
      else some (decToRat 1 (n.firstDigit :: n.restDigits)
        (fr.takeWhile Char.isDigit) (jsReadExp (fr.dropWhile Char.isDigit)))) = _
    rw [htake2, hdrop2, if_neg (by simp)]
    unfold DecNum.val
    rw [hf]
    rfl

theorem splitANDAux_sep (acc rest : List Char) :
    splitANDAux acc (' ' :: 'A' :: 'N' :: 'D' :: ' ' :: rest) =
      acc.reverse :: splitANDAux [] rest := rfl

theorem splitANDAux_cons_ne (acc : List Char) (c : Char) (cs : List Char)
    (h : ¬ (c = ' ' ∧ ∃ rest, cs = 'A' :: 'N' :: 'D' :: ' ' :: rest)) :
    splitANDAux acc (c :: cs) = splitANDAux (c :: acc) cs := by
  rw [splitANDAux.eq_def]
  split
  · rename_i rest heq
    rw [List.cons.injEq] at heq
    exact absurd ⟨heq.1, rest, heq.2⟩ h
  · rename_i c2 cs2 hno heq
    rw [List.cons.injEq] at heq
    obtain ⟨h1, h2⟩ := heq
    subst h1
    subst h2
    rfl
  · rename_i heq
    exact List.noConfusion heq

theorem splitANDAux_no_sep (x : List Char) :
    ∀ (acc rest : List Char), (∀ c ∈ x, c ≠ 'A') →
    (∀ c, rest.head? = some c → c ≠ 'A') →
    splitANDAux acc (x ++ rest) = splitANDAux (x.reverse ++ acc) rest := by
  induction x with
  | nil =>
    intro acc rest _ _
    simp
  | cons c cs ih =>
    intro acc rest hx hrest
    have hstep : ¬ (c = ' ' ∧ ∃ r, cs ++ rest = 'A' :: 'N' :: 'D' :: ' ' :: r) := by
      rintro ⟨hc, r, hr⟩
      cases cs with
      | nil =>
        rw [List.nil_append] at hr
        exact hrest 'A' (by rw [hr]; rfl) rfl
      | cons c2 cs2 =>
        rw [List.cons_append, List.cons.injEq] at hr
        exact hx c2 (by simp) hr.1
    rw [List.cons_append, splitANDAux_cons_ne acc c (cs ++ rest) hstep,
        ih (c :: acc) rest (fun c' hc' => hx c' (List.mem_cons_of_mem c hc')) hrest]
    simp

theorem splitANDAux_no_sep_all (x acc : List Char) (hx : ∀ c ∈ x, c ≠ 'A') :
    splitANDAux acc x = [acc.reverse ++ x] := by
  have h := splitANDAux_no_sep x acc [] hx (fun c hc => by simp at hc)
  rw [List.append_nil] at h
  rw [h]
  show [(x.reverse ++ acc).reverse] = _
  simp

/-- `split(' AND ')` on a string with exactly one separator occurrence
(neither side contains an `'A'`) yields the two sides. -/
theorem splitAND_two (x y : List Char)
    (hx : ∀ c ∈ x, c ≠ 'A') (hy : ∀ c ∈ y, c ≠ 'A') :
    splitAND (x ++ (' ' :: 'A' :: 'N' :: 'D' :: ' ' :: y)) = [x, y] := by
  unfold splitAND
  rw [splitANDAux_no_sep x [] (' ' :: 'A' :: 'N' :: 'D' :: ' ' :: y) hx
      (fun c hc => by cases hc; decide)]
  rw [splitANDAux_sep, splitANDAux_no_sep_all y [] hy]
  simp

theorem jsTrim_of_ends (l : List Char)
    (h1 : ∀ c, l.head? = some c → jsIsSpace c = false)
    (h2 : ∀ c, l.getLast? = some c → jsIsSpace c = false) : jsTrim l = l := by
  unfold jsTrim
  rw [dropWhile_of_head_false l h1,
      dropWhile_of_head_false l.reverse
        (fun c hc => h2 c (by rwa [List.head?_reverse] at hc))]
  exact List.reverse_reverse l

/-- The canonical band condition `<lower> < value AND value <= <upper>`. -/
def bandCondition (lo hi : DecNum) : List Char :=
  (lo.render ++ ltValue) ++
    (' ' :: 'A' :: 'N' :: 'D' :: ' ' :: (valueLe ++ hi.render))

theorem render_not_space (n : DecNum) :
    ∀ c ∈ n.render, jsIsSpace c = false := by
  intro c hc
  rcases render_chars n c hc with h | h
  · exact digit_not_space h
  · rw [h]; decide

/-- Bound extraction on a canonical band condition returns the two
numerals' values. -/
theorem parseBandCondition_canonical (lo hi : DecNum) :
    RuleEvaluator.parseBandCondition (bandCondition lo hi) =
      some (lo.val, hi.val) := by
  obtain ⟨tl, htl⟩ := render_eq_cons lo
  obtain ⟨th, hth⟩ := render_eq_cons hi
  have hxA : ∀ c ∈ lo.render ++ ltValue, c ≠ 'A' := by
    intro c hc
    rcases List.mem_append.1 hc with hm | hm
    · exact render_ne_A lo c hm
    · exact (by decide : ∀ c ∈ ltValue, c ≠ 'A') c hm
  have hyA : ∀ c ∈ valueLe ++ hi.render, c ≠ 'A' := by
    intro c hc
    rcases List.mem_append.1 hc with hm | hm
    · exact (by decide : ∀ c ∈ valueLe, c ≠ 'A') c hm
    · exact render_ne_A hi c hm
  have htrimx : jsTrim (lo.render ++ ltValue) = lo.render ++ ltValue := by
    refine jsTrim_of_ends _ (fun c hc => ?_) (fun c hc => ?_)
    · rw [htl, List.cons_append] at hc
      cases hc
      exact digit_not_space lo.firstDigit_digit
    · rw [List.getLast?_append_of_ne_nil _ (by decide : ltValue ≠ [])] at hc
      cases hc
      decide
  have htrimy : jsTrim (valueLe ++ hi.render) = valueLe ++ hi.render := by
    refine jsTrim_of_ends _ (fun c hc => ?_) (fun c hc => ?_)
    · cases hc
      decide
    · rw [List.getLast?_append_of_ne_nil _
        (by rw [hth]; exact List.cons_ne_nil _ _)] at hc
      exact render_not_space hi c (List.mem_of_mem_getLast? hc)
  unfold RuleEvaluator.parseBandCondition bandCondition
  rw [splitAND_two _ _ hxA hyA]
  dsimp only
  rw [htrimx, htrimy, searchLower_render lo, searchUpper_render hi]
  dsimp only
  rw [jsParseFloat_render lo, jsParseFloat_render hi]
  rfl

/-- The docs' amber band rule. -/
def amberBandRule : Rule :=
  { alertId := "ratio.low_reserves_backing.amber"
    metricId := "ratio.reserves_to_base", level := .amber, type := "band"
    condition := "0.002 < value AND value <= 0.01"
    message := "El respaldo del peso es bajo", threshold := some (mkRat 2 1000)
    window := none, units := none, inputs := none, notes := none
    minConsecutive := none, trend := none }

/-- The numeral `0.002`. -/
def dn0002 : DecNum := ⟨'0', [], some ['0', '0', '2'], by decide, by decide, by decide⟩

/-- The numeral `0.01`. -/
def dn001 : DecNum := ⟨'0', [], some ['0', '1'], by decide, by decide, by decide⟩

/-- C7: every band rule whose condition has the canonical shape
`<lower> < value AND value <= <upper>` (unsigned decimal numerals)
evaluates successfully and triggers exactly when `lower < value ≤ upper`
(lower bound exclusive, upper bound inclusive); in particular, for
`0.002 < value AND value <= 0.01`: `0.002` does not trigger, `0.0020001`
triggers, `0.01` triggers, `0.0100001` does not trigger. -/
theorem band_halfOpen_bounds :
    (∀ (rule : Rule) (lo hi : DecNum) (v : ℚ) (tv : List ℚ) (md : Metadata),
      rule.type = "band" → rule.condition.data = bandCondition lo hi →
      ∃ r, RuleEvaluator.evaluate rule v tv md = .ok r ∧
        (r.triggered = true ↔ (lo.val < v ∧ v ≤ hi.val))) ∧
    ((RuleEvaluator.evaluate amberBandRule (mkRat 2 1000) [] ⟨none, none⟩).map
        (·.triggered) = .ok false) ∧
    ((RuleEvaluator.evaluate amberBandRule (mkRat 20001 10000000) [] ⟨none, none⟩).map
        (·.triggered) = .ok true) ∧
    ((RuleEvaluator.evaluate amberBandRule (mkRat 1 100) [] ⟨none, none⟩).map
        (·.triggered) = .ok true) ∧
    ((RuleEvaluator.evaluate amberBandRule (mkRat 100001 10000000) [] ⟨none, none⟩).map
        (·.triggered) = .ok false) := by
  refine ⟨?_, by decide, by decide, by decide, by decide⟩
  intro rule lo hi v tv md htype hcond
  unfold RuleEvaluator.evaluate
  rw [htype]
  rw [if_neg (by decide), if_pos rfl]
  unfold RuleEvaluator.evaluateBand
  rw [hcond, parseBandCondition_canonical lo hi]
  refine ⟨_, rfl, ?_⟩
  simp

/-- C7 witness: the general statement instantiated at the amber band
rule, whose condition is the canonical shape with bounds `0.002` and
`0.01`, and the value `0.005` (inside the band). -/
theorem band_halfOpen_bounds_witness :
    (amberBandRule.type = "band" ∧
     amberBandRule.condition.data = bandCondition dn0002 dn001) ∧
    ∃ r, RuleEvaluator.evaluate amberBandRule (mkRat 5 1000) [] ⟨none, none⟩ =
        .ok r ∧
      (r.triggered = true ↔ (dn0002.val < mkRat 5 1000 ∧
        mkRat 5 1000 ≤ dn001.val)) :=
  ⟨⟨rfl, by decide⟩,
   band_halfOpen_bounds.1 amberBandRule dn0002 dn001 (mkRat 5 1000) []
     ⟨none, none⟩ rfl (by decide)⟩

/-! ## C10 — band bound extraction over the signed / exponent families

The claim quantifies over band rules whose lower bound is written signed
or in exponent notation, and over unsigned upper bounds with an exponent
suffix or signed upper bounds.  As for the canonical shape, we prove it
over the numeral grammar `DecNum`: each family below is a condition
constructor universal in its numerals (and in the sign / exponent-marker
characters). -/

theorem digit_ne_v {c : Char} (h : c.isDigit = true) : c ≠ 'v' :=
  fun he => absurd h (by rw [he]; decide)

theorem matchNum_head_not_digit (c : Char) (cs : List Char)
    (h : c.isDigit = false) : matchNum (c :: cs) = none := by
  unfold matchNum
  rw [List.takeWhile_cons, h]
  rfl

theorem matchLowerAt_head_not_digit (c : Char) (cs : List Char)
    (h : c.isDigit = false) : matchLowerAt (c :: cs) = none := by
  unfold matchLowerAt
  rw [matchNum_head_not_digit c cs h]

theorem searchLower_cons_none (c : Char) (cs : List Char)
    (h : matchLowerAt (c :: cs) = none) :
    searchLower (c :: cs) = searchLower cs := by
  show (match matchLowerAt (c :: cs) with
        | some cap => some cap
        | none => searchLower cs) = searchLower cs
  rw [h]

theorem searchUpper_cons_none (c : Char) (cs : List Char)
    (h : matchUpperAt (c :: cs) = none) :
    searchUpper (c :: cs) = searchUpper cs := by
  show (match matchUpperAt (c :: cs) with
        | some cap => some cap
        | none => searchUpper cs) = searchUpper cs
  rw [h]

theorem matchUpperAt_head_ne_v (c : Char) (cs : List Char) (h : c ≠ 'v') :
    matchUpperAt (c :: cs) = none := by
  rw [matchUpperAt.eq_def]
  split
  · rename_i r heq
    rw [List.cons.injEq] at heq
    exact absurd heq.1 h
  · rfl

theorem searchLower_skip (p rest : List Char)
    (h : ∀ c cs, (c :: cs) <:+ p → matchLowerAt ((c :: cs) ++ rest) = none) :
    searchLower (p ++ rest) = searchLower rest := by
  induction p with
  | nil => rfl
  | cons c p ih =>
    rw [List.cons_append,
        searchLower_cons_none c (p ++ rest)
          (by rw [← List.cons_append]; exact h c p (List.suffix_refl _))]
    exact ih (fun c' cs' hs => h c' cs' (hs.trans (List.suffix_cons c p)))

theorem searchUpper_none_all (l : List Char)
    (h : ∀ c cs, (c :: cs) <:+ l → matchUpperAt (c :: cs) = none) :
    searchUpper l = none := by
  induction l with
  | nil => rfl
  | cons c cs ih =>
    rw [searchUpper_cons_none c cs (h c cs (List.suffix_refl _))]
    exact ih (fun c' cs' hs => h c' cs' (hs.trans (List.suffix_cons c cs)))

theorem suffix_append_cases (q p rest : List Char) (h : q <:+ p ++ rest) :
    q <:+ rest ∨ ∃ x, q = x ++ rest ∧ x <:+ p := by
  induction p with
  | nil =>
    rw [List.nil_append] at h
    exact .inl h
  | cons c p ih =>
    rw [List.cons_append, List.suffix_cons_iff] at h
    rcases h with rfl | h
    · exact .inr ⟨c :: p, List.cons_append c p rest, List.suffix_refl _⟩
    · rcases ih h with h1 | ⟨x, h1, h2⟩
      · exact .inl h1
      · exact .inr ⟨x, h1, h2.trans (List.suffix_cons c p)⟩

theorem dropWhile_digit_digitdot (q rest : List Char)
    (hq : ∀ c ∈ q, c.isDigit = true ∨ c = '.')
    (hrest : ∀ c, rest.head? = some c → c.isDigit = false) :
    (q ++ rest).dropWhile Char.isDigit = rest ∨
    ∃ q2, (q ++ rest).dropWhile Char.isDigit = '.' :: (q2 ++ rest) ∧
      ∀ c ∈ q2, c.isDigit = true ∨ c = '.' := by
  induction q with
  | nil =>
    left
    rw [List.nil_append]
    exact dropWhile_of_head_false rest hrest
  | cons c q ih =>
    rcases hq c (List.mem_cons_self c q) with hd | hdot
    · rw [List.cons_append, List.dropWhile_cons, hd]
      exact ih (fun c' hc' => hq c' (List.mem_cons_of_mem c hc'))
    · subst hdot
      right
      rw [List.cons_append, List.dropWhile_cons]
      refine ⟨q, ?_, fun c' hc' => hq c' (List.mem_cons_of_mem _ hc')⟩
      rw [show ('.' : Char).isDigit = false from by decide]
      rfl

theorem matchNum_digitdot (q rest : List Char)
    (hq : ∀ c ∈ q, c.isDigit = true ∨ c = '.')
    (hrest : ∀ c, rest.head? = some c → c.isDigit = false ∧ c ≠ '.') :
    matchNum (q ++ rest) = none ∨
    ∃ cap r1, matchNum (q ++ rest) = some (cap, r1) ∧
      (r1 = rest ∨ ∃ t, r1 = '.' :: t) := by
  unfold matchNum
  by_cases he : ((q ++ rest).takeWhile Char.isDigit).isEmpty = true
  · left
    dsimp only
    rw [if_pos he]
  · right
    dsimp only
    rw [if_neg he]
    rcases dropWhile_digit_digitdot q rest hq (fun c hc => (hrest c hc).1)
      with hd | ⟨q2, hd, hq2⟩
    · rw [hd]
      cases rest with
      | nil => exact ⟨_, _, rfl, .inl rfl⟩
      | cons c cs =>
        have hc := hrest c rfl
        split
        · rename_i r2 heq
          rw [List.cons.injEq] at heq
          exact absurd heq.1 hc.2
        · exact ⟨_, _, rfl, .inl rfl⟩
    · rw [hd]
      split
      · rename_i r2 heq
        rw [List.cons.injEq] at heq
        obtain ⟨-, h2⟩ := heq
        subst h2
        refine ⟨_, _, rfl, ?_⟩
        rcases dropWhile_digit_digitdot q2 rest hq2 (fun c hc => (hrest c hc).1)
          with hd2 | ⟨q3, hd2, -⟩
        · rw [hd2]
          cases rest with
          | nil => exact .inl rfl
          | cons c cs => exact .inl rfl
        · rw [hd2]
          exact .inr ⟨_, rfl⟩
      · rename_i hno
        exact absurd rfl (hno (q2 ++ rest))

theorem matchLowerAt_tail_bad (l cap r1 : List Char)
    (hm : matchNum l = some (cap, r1))
    (hhead : ∀ c, r1.head? = some c → jsIsSpace c = false ∧ c ≠ '<') :
    matchLowerAt l = none := by
  unfold matchLowerAt
  rw [hm]
  dsimp only
  rw [dropWhile_of_head_false r1 (fun c hc => (hhead c hc).1)]
  cases r1 with
  | nil => rfl
  | cons c cs =>
    have hc := hhead c rfl
    split
    · rename_i r2 heq
      rw [List.cons.injEq] at heq
      exact absurd heq.1 hc.2
    · rfl

theorem matchLowerAt_after_block (q rest : List Char)
    (hq : ∀ c ∈ q, c.isDigit = true ∨ c = '.')
    (hrest : ∀ c, rest.head? = some c →
      c.isDigit = false ∧ c ≠ '.' ∧ jsIsSpace c = false ∧ c ≠ '<') :
    matchLowerAt (q ++ rest) = none := by
  rcases matchNum_digitdot q rest hq
    (fun c hc => ⟨(hrest c hc).1, (hrest c hc).2.1⟩) with hm | ⟨cap, r1, hm, hr1⟩
  · unfold matchLowerAt
    rw [hm]
  · refine matchLowerAt_tail_bad _ cap r1 hm (fun c hc => ?_)
    rcases hr1 with rfl | ⟨t, rfl⟩
    · exact ⟨(hrest c hc).2.2.1, (hrest c hc).2.2.2⟩
    · cases hc
      exact ⟨by decide, by decide⟩

/-- The lower-bound search skips a single non-digit character. -/
theorem searchLower_cons_not_digit (s : Char) (x : List Char)
    (hs : s.isDigit = false) : searchLower (s :: x) = searchLower x :=
  searchLower_cons_none s x (matchLowerAt_head_not_digit s x hs)

/-- The lower-bound search skips a numeral followed by two characters that
are neither digits, dots, whitespace nor `<` (resp. not digits). -/
theorem searchLower_skip_num_two (m : DecNum) (e s : Char) (rest : List Char)
    (he : e.isDigit = false ∧ e ≠ '.' ∧ jsIsSpace e = false ∧ e ≠ '<')
    (hs : s.isDigit = false) :
    searchLower ((m.render ++ [e, s]) ++ rest) = searchLower rest := by
  apply searchLower_skip
  intro c cs hsuf
  rcases suffix_append_cases _ _ _ hsuf with hq | ⟨x, hq, hx⟩
  · rcases List.suffix_cons_iff.1 hq with heq | hq2
    · rw [heq, List.cons_append]
      exact matchLowerAt_head_not_digit _ _ he.1
    · rcases List.suffix_cons_iff.1 hq2 with heq | hq3
      · rw [heq, List.cons_append]
        exact matchLowerAt_head_not_digit _ _ hs
      · exact absurd (List.eq_nil_of_suffix_nil hq3) (List.cons_ne_nil c cs)
  · rw [hq, List.append_assoc]
    refine matchLowerAt_after_block x (e :: s :: rest)
      (fun c' hc' => render_chars m c' (hx.subset hc')) (fun c' hc' => ?_)
    cases hc'
    exact he

/-- The upper regular expression fails when the character after
`"value <= "` is not a digit. -/
theorem matchUpperAt_valueLe_none (c : Char) (cs : List Char)
    (hsp : jsIsSpace c = false) (hd : c.isDigit = false) :
    matchUpperAt (valueLe ++ (c :: cs)) = none := by
  have hstep : matchUpperAt (valueLe ++ (c :: cs)) =
      (matchNum ((c :: cs).dropWhile jsIsSpace)).map Prod.fst := rfl
  rw [hstep, List.dropWhile_cons, hsp]
  show (matchNum (c :: cs)).map Prod.fst = none
  rw [matchNum_head_not_digit c cs hd]
  rfl

/-- The upper regular expression matches `"value <= "` followed by a
rendered numeral and any non-digit non-dot continuation, capturing the
numeral. -/
theorem matchUpperAt_render_rest (n : DecNum) (rest : List Char)
    (hrest : ∀ c, rest.head? = some c → c.isDigit = false ∧ c ≠ '.') :
    matchUpperAt (valueLe ++ (n.render ++ rest)) = some n.render := by
  have hstep : matchUpperAt (valueLe ++ (n.render ++ rest)) =
      (matchNum ((n.render ++ rest).dropWhile jsIsSpace)).map Prod.fst := rfl
  rw [hstep]
  obtain ⟨t, ht⟩ := render_eq_cons n
  rw [dropWhile_of_head_false (n.render ++ rest)
    (fun c hc => by
      rw [ht, List.cons_append] at hc
      cases hc
      exact digit_not_space n.firstDigit_digit)]
  rw [matchNum_render n rest hrest]
  rfl

/-- A suffix of `"value <= "` is the whole literal or avoids `'v'`. -/
theorem valueLe_suffix_cases (q : List Char) (h : q <:+ valueLe) :
    q = valueLe ∨ ∀ c ∈ q, c ≠ 'v' := by
  obtain ⟨t, ht⟩ := h
  cases t with
  | nil =>
    left
    rw [← ht, List.nil_append]
  | cons a t' =>
    right
    have ht2 : t' ++ q = ['a', 'l', 'u', 'e', ' ', '<', '=', ' '] := by
      rw [List.cons_append] at ht
      have := List.cons.injEq a (t' ++ q) 'v' ['a', 'l', 'u', 'e', ' ', '<', '=', ' '] ▸ ht
      exact (List.cons.inj ht).2
    intro c hc
    have hmem : c ∈ ['a', 'l', 'u', 'e', ' ', '<', '=', ' '] := by
      rw [← ht2]
      exact List.mem_append_right t' hc
    exact (by decide : ∀ c ∈ ['a', 'l', 'u', 'e', ' ', '<', '=', ' '], c ≠ 'v') c hmem

/-- The upper-bound search fails outright on `"value <= "` followed by a
signed numeral: the digit required right after the `<=` is missing and no
later occurrence of `value` exists. -/
theorem searchUpper_signed_none (s : Char) (hi : DecNum)
    (hsv : s ≠ 'v') (hsp : jsIsSpace s = false) (hsd : s.isDigit = false) :
    searchUpper (valueLe ++ (s :: hi.render)) = none := by
  apply searchUpper_none_all
  intro c cs hsuf
  rcases suffix_append_cases _ _ _ hsuf with hq | ⟨x, hq, hx⟩
  · rcases List.suffix_cons_iff.1 hq with heq | hq2
    · have hc : c = s := (List.cons.inj heq).1
      exact matchUpperAt_head_ne_v c cs (hc ▸ hsv)
    · have hc : c ∈ hi.render := hq2.subset (List.mem_cons_self c cs)
      refine matchUpperAt_head_ne_v c cs ?_
      rcases render_chars hi c hc with h | h
      · exact digit_ne_v h
      · rw [h]; decide
  · cases x with
    | nil =>
      rw [List.nil_append] at hq
      have hc : c = s := (List.cons.inj hq).1
      exact matchUpperAt_head_ne_v c cs (hc ▸ hsv)
    | cons a x' =>
      rcases valueLe_suffix_cases (a :: x') hx with hfull | havoid
      · rw [hq, hfull]
        exact matchUpperAt_valueLe_none s hi.render hsp hsd
      · have hc : c = a := by
          rw [List.cons_append] at hq
          exact (List.cons.inj hq).1
        exact matchUpperAt_head_ne_v c cs
          (hc ▸ havoid a (List.mem_cons_self a x'))

/-- `-<lo> < value AND value <= <hi>`: a band condition with a signed
lower bound (sign `s`). -/
def signedLowerBand (s : Char) (lo hi : DecNum) : List Char :=
  (s :: (lo.render ++ ltValue)) ++
    (' ' :: 'A' :: 'N' :: 'D' :: ' ' :: (valueLe ++ hi.render))

/-- `<m>e-<d> < value AND value <= <hi>`: a band condition whose lower
bound is in exponent notation (marker `e`, exponent sign `s`). -/
def expLowerBand (m : DecNum) (e s : Char) (d hi : DecNum) : List Char :=
  ((m.render ++ e :: s :: d.render) ++ ltValue) ++
    (' ' :: 'A' :: 'N' :: 'D' :: ' ' :: (valueLe ++ hi.render))

/-- `<lo> < value AND value <= <m>e-<d>`: a band condition whose unsigned
upper bound carries an exponent suffix. -/
def expUpperBand (lo m : DecNum) (e s : Char) (d : DecNum) : List Char :=
  (lo.render ++ ltValue) ++
    (' ' :: 'A' :: 'N' :: 'D' :: ' ' ::
      (valueLe ++ (m.render ++ e :: s :: d.render)))

/-- `<lo> < value AND value <= -<hi>`: a band condition with a signed
upper bound (sign `s`). -/
def signedUpperBand (lo : DecNum) (s : Char) (hi : DecNum) : List Char :=
  (lo.render ++ ltValue) ++
    (' ' :: 'A' :: 'N' :: 'D' :: ' ' :: (valueLe ++ s :: hi.render))

theorem ltValue_ne_A : ∀ c ∈ ltValue, c ≠ 'A' := by decide

theorem valueLe_ne_A : ∀ c ∈ valueLe, c ≠ 'A' := by decide

/-- Trim is the identity on a canonical upper part extended on the right
by arbitrary non-whitespace material. -/
theorem jsTrim_upper_ext (z : List Char) (hne : z ≠ [])
    (hz : ∀ c, z.getLast? = some c → jsIsSpace c = false) :
    jsTrim (valueLe ++ z) = valueLe ++ z := by
  refine jsTrim_of_ends _ (fun c hc => ?_) (fun c hc => ?_)
  · cases hc
    decide
  · rw [List.getLast?_append_of_ne_nil _ hne] at hc
    exact hz c hc

/-- Bound extraction on a signed-lower band condition silently discards
the sign and returns the unsigned numerals' values. -/
theorem parseBand_signedLower_aux (s : Char) (hA : s ≠ 'A')
    (hsp : jsIsSpace s = false) (hsd : s.isDigit = false) (lo hi : DecNum) :
    RuleEvaluator.parseBandCondition (signedLowerBand s lo hi) = some (lo.val, hi.val) := by
  obtain ⟨th, hth⟩ := render_eq_cons hi
  have hxA : ∀ c ∈ s :: (lo.render ++ ltValue), c ≠ 'A' := by
    intro c hc
    rcases List.mem_cons.1 hc with rfl | hm
    · exact hA
    · rcases List.mem_append.1 hm with hm' | hm'
      · exact render_ne_A lo c hm'
      · exact ltValue_ne_A c hm'
  have hyA : ∀ c ∈ valueLe ++ hi.render, c ≠ 'A' := by
    intro c hc
    rcases List.mem_append.1 hc with hm | hm
    · exact valueLe_ne_A c hm
    · exact render_ne_A hi c hm
  have htrimx : jsTrim (s :: (lo.render ++ ltValue)) = s :: (lo.render ++ ltValue) := by
    refine jsTrim_of_ends _ (fun c hc => ?_) (fun c hc => ?_)
    · cases hc
      exact hsp
    · rw [show s :: (lo.render ++ ltValue) = (s :: lo.render) ++ ltValue from rfl,
          List.getLast?_append_of_ne_nil _ (by decide : ltValue ≠ [])] at hc
      cases hc
      decide
  have htrimy : jsTrim (valueLe ++ hi.render) = valueLe ++ hi.render :=
    jsTrim_upper_ext hi.render (by rw [hth]; exact List.cons_ne_nil _ _)
      (fun c hc => render_not_space hi c (List.mem_of_mem_getLast? hc))
  unfold RuleEvaluator.parseBandCondition signedLowerBand
  rw [splitAND_two _ _ hxA hyA]
  dsimp only
  rw [htrimx, htrimy, searchLower_cons_not_digit s _ hsd,
      searchLower_render lo, searchUpper_render hi]
  dsimp only
  rw [jsParseFloat_render lo, jsParseFloat_render hi]
  rfl

/-- Bound extraction on an exponent-notation lower bound discards the
mantissa and the exponent marker and returns the exponent digits' value. -/
theorem parseBand_expLower_aux (m : DecNum) (e s : Char)
    (heA : e ≠ 'A') (hsA : s ≠ 'A')
    (he : e.isDigit = false ∧ e ≠ '.' ∧ jsIsSpace e = false ∧ e ≠ '<')
    (hsd : s.isDigit = false) (d hi : DecNum) :
    RuleEvaluator.parseBandCondition (expLowerBand m e s d hi) = some (d.val, hi.val) := by
  obtain ⟨tm, htm⟩ := render_eq_cons m
  obtain ⟨th, hth⟩ := render_eq_cons hi
  have hxA : ∀ c ∈ (m.render ++ e :: s :: d.render) ++ ltValue, c ≠ 'A' := by
    intro c hc
    rcases List.mem_append.1 hc with hm | hm
    · rcases List.mem_append.1 hm with hm' | hm'
      · exact render_ne_A m c hm'
      · rcases List.mem_cons.1 hm' with rfl | hm2
        · exact heA
        · rcases List.mem_cons.1 hm2 with rfl | hm3
          · exact hsA
          · exact render_ne_A d c hm3
    · exact ltValue_ne_A c hm
  have hyA : ∀ c ∈ valueLe ++ hi.render, c ≠ 'A' := by
    intro c hc
    rcases List.mem_append.1 hc with hm | hm
    · exact valueLe_ne_A c hm
    · exact render_ne_A hi c hm
  have htrimx : jsTrim ((m.render ++ e :: s :: d.render) ++ ltValue) =
      (m.render ++ e :: s :: d.render) ++ ltValue := by
    refine jsTrim_of_ends _ (fun c hc => ?_) (fun c hc => ?_)
    · rw [htm, List.cons_append, List.cons_append] at hc
      cases hc
      exact digit_not_space m.firstDigit_digit
    · rw [List.getLast?_append_of_ne_nil _ (by decide : ltValue ≠ [])] at hc
      cases hc
      decide
  have htrimy : jsTrim (valueLe ++ hi.render) = valueLe ++ hi.render :=
    jsTrim_upper_ext hi.render (by rw [hth]; exact List.cons_ne_nil _ _)
      (fun c hc => render_not_space hi c (List.mem_of_mem_getLast? hc))
  have hassoc : (m.render ++ e :: s :: d.render) ++ ltValue =
      (m.render ++ [e, s]) ++ (d.render ++ ltValue) := by
    simp
  unfold RuleEvaluator.parseBandCondition expLowerBand
  rw [splitAND_two _ _ hxA hyA]
  dsimp only
  rw [htrimx, htrimy, hassoc, searchLower_skip_num_two m e s _ he hsd,
      searchLower_render d, searchUpper_render hi]
  dsimp only
  rw [jsParseFloat_render d, jsParseFloat_render hi]
  rfl

/-- Bound extraction on an exponent-suffixed upper bound captures the
mantissa only and silently discards the exponent suffix. -/
theorem searchUpper_render_rest (n : DecNum) (rest : List Char)
    (hrest : ∀ c, rest.head? = some c → c.isDigit = false ∧ c ≠ '.') :
    searchUpper (valueLe ++ (n.render ++ rest)) = some n.render :=
  searchUpper_eq_of_matchAt _ _ _ (matchUpperAt_render_rest n rest hrest)

theorem parseBand_expUpper_aux (lo m : DecNum) (e s : Char)
    (heA : e ≠ 'A') (hsA : s ≠ 'A')
    (hed : e.isDigit = false) (hedot : e ≠ '.') (d : DecNum) :
    RuleEvaluator.parseBandCondition (expUpperBand lo m e s d) = some (lo.val, m.val) := by
  obtain ⟨tl, htl⟩ := render_eq_cons lo
  obtain ⟨td, htd⟩ := render_eq_cons d
  have hxA : ∀ c ∈ lo.render ++ ltValue, c ≠ 'A' := by
    intro c hc
    rcases List.mem_append.1 hc with hm | hm
    · exact render_ne_A lo c hm
    · exact ltValue_ne_A c hm
  have hyA : ∀ c ∈ valueLe ++ (m.render ++ e :: s :: d.render), c ≠ 'A' := by
    intro c hc
    rcases List.mem_append.1 hc with hm | hm
    · exact valueLe_ne_A c hm
    · rcases List.mem_append.1 hm with hm' | hm'
      · exact render_ne_A m c hm'
      · rcases List.mem_cons.1 hm' with rfl | hm2
        · exact heA
        · rcases List.mem_cons.1 hm2 with rfl | hm3
          · exact hsA
          · exact render_ne_A d c hm3
  have htrimx : jsTrim (lo.render ++ ltValue) = lo.render ++ ltValue := by
    refine jsTrim_of_ends _ (fun c hc => ?_) (fun c hc => ?_)
    · rw [htl, List.cons_append] at hc
      cases hc
      exact digit_not_space lo.firstDigit_digit
    · rw [List.getLast?_append_of_ne_nil _ (by decide : ltValue ≠ [])] at hc
      cases hc
      decide
  obtain ⟨tm, htm⟩ := render_eq_cons m
  have htrimy : jsTrim (valueLe ++ (m.render ++ e :: s :: d.render)) =
      valueLe ++ (m.render ++ e :: s :: d.render) := by
    refine jsTrim_upper_ext _ (by rw [htm, List.cons_append]; exact List.cons_ne_nil _ _)
      (fun c hc => ?_)
    rw [show m.render ++ e :: s :: d.render = (m.render ++ [e, s]) ++ d.render
          from by simp,
        List.getLast?_append_of_ne_nil _
          (by rw [htd]; exact List.cons_ne_nil _ _)] at hc
    exact render_not_space d c (List.mem_of_mem_getLast? hc)
  unfold RuleEvaluator.parseBandCondition expUpperBand
  rw [splitAND_two _ _ hxA hyA]
  dsimp only
  rw [htrimx, htrimy, searchLower_render lo,
      searchUpper_render_rest m (e :: s :: d.render)
        (fun c hc => by cases hc; exact ⟨hed, hedot⟩)]
  dsimp only
  rw [jsParseFloat_render lo, jsParseFloat_render m]
  rfl

/-- Bound extraction fails on a signed upper bound: the upper regular
expression finds no match. -/
theorem parseBand_signedUpper_aux (lo : DecNum) (s : Char)
    (hsv : s ≠ 'v') (hsA : s ≠ 'A')
    (hsp : jsIsSpace s = false) (hsd : s.isDigit = false) (hi : DecNum) :
    RuleEvaluator.parseBandCondition (signedUpperBand lo s hi) = none := by
  obtain ⟨tl, htl⟩ := render_eq_cons lo
  obtain ⟨th, hth⟩ := render_eq_cons hi
  have hxA : ∀ c ∈ lo.render ++ ltValue, c ≠ 'A' := by
    intro c hc
    rcases List.mem_append.1 hc with hm | hm
    · exact render_ne_A lo c hm
    · exact ltValue_ne_A c hm
  have hyA : ∀ c ∈ valueLe ++ s :: hi.render, c ≠ 'A' := by
    intro c hc
    rcases List.mem_append.1 hc with hm | hm
    · exact valueLe_ne_A c hm
    · rcases List.mem_cons.1 hm with rfl | hm'
      · exact hsA
      · exact render_ne_A hi c hm'
  have htrimx : jsTrim (lo.render ++ ltValue) = lo.render ++ ltValue := by
    refine jsTrim_of_ends _ (fun c hc => ?_) (fun c hc => ?_)
    · rw [htl, List.cons_append] at hc
      cases hc
      exact digit_not_space lo.firstDigit_digit
    · rw [List.getLast?_append_of_ne_nil _ (by decide : ltValue ≠ [])] at hc
      cases hc
      decide
  have htrimy : jsTrim (valueLe ++ s :: hi.render) = valueLe ++ s :: hi.render := by
    refine jsTrim_upper_ext _ (List.cons_ne_nil _ _) (fun c hc => ?_)
    rw [show s :: hi.render = [s] ++ hi.render from rfl,
        List.getLast?_append_of_ne_nil _
          (by rw [hth]; exact List.cons_ne_nil _ _)] at hc
    exact render_not_space hi c (List.mem_of_mem_getLast? hc)
  unfold RuleEvaluator.parseBandCondition signedUpperBand
  rw [splitAND_two _ _ hxA hyA]
  dsimp only
  rw [htrimx, htrimy, searchLower_render lo,
      searchUpper_signed_none s hi hsv hsp hsd]

/-- A band rule whose condition parses evaluates to `ok` with the
half-open comparison against the parsed bounds. -/
theorem evaluateBand_of_parse (rule : Rule) (v : ℚ) (tv : List ℚ)
    (md : Metadata) (b : ℚ × ℚ) (htype : rule.type = "band")
    (hp : RuleEvaluator.parseBandCondition rule.condition.data = some b) :
    ∃ r, RuleEvaluator.evaluate rule v tv md = .ok r ∧
      (r.triggered = true ↔ (b.1 < v ∧ v ≤ b.2)) := by
  obtain ⟨bl, bu⟩ := b
  unfold RuleEvaluator.evaluate
  rw [htype, if_neg (by decide), if_pos rfl]
  unfold RuleEvaluator.evaluateBand
  rw [hp]
  refine ⟨_, rfl, ?_⟩
  simp

/-- A band rule whose condition fails to parse raises the validation
error. -/
theorem evaluateBand_of_parse_none (rule : Rule) (v : ℚ) (tv : List ℚ)
    (md : Metadata) (htype : rule.type = "band")
    (hp : RuleEvaluator.parseBandCondition rule.condition.data = none) :
    RuleEvaluator.evaluate rule v tv md =
      .error ("Invalid band condition format: " ++ rule.condition) := by
  unfold RuleEvaluator.evaluate
  rw [htype, if_neg (by decide), if_pos rfl]
  unfold RuleEvaluator.evaluateBand
  rw [hp]

/-- The numeral `0.05`. -/
def dn005 : DecNum := ⟨'0', [], some ['0', '5'], by decide, by decide, by decide⟩

/-- The numeral `1`. -/
def dn1 : DecNum := ⟨'1', [], none, by decide, by decide, by decide⟩

/-- The numeral `3`. -/
def dn3 : DecNum := ⟨'3', [], none, by decide, by decide, by decide⟩

/-- The spec example: a band rule whose lower bound is in exponent
notation. -/
def expLowerBandRule : Rule :=
  { alertId := "r.exp_lower", metricId := "m", level := .amber
    type := "band", condition := "1e-3 < value AND value <= 0.01"
    message := "msg", threshold := none, window := none, units := none
    inputs := none, notes := none, minConsecutive := none, trend := none }

/-- A band rule whose unsigned upper bound carries an exponent suffix. -/
def expUpperBandRule : Rule :=
  { alertId := "r.exp_upper", metricId := "m", level := .amber
    type := "band", condition := "0.002 < value AND value <= 1e-3"
    message := "msg", threshold := none, window := none, units := none
    inputs := none, notes := none, minConsecutive := none, trend := none }

/-- C10 (amended): for every band rule whose lower bound is written
signed (`-<lo> < value AND value <= <hi>`, sign `-` or `+`) or in
exponent notation (`<m>e±<d> < value AND value <= <hi>`, marker `e` or
`E`), and for every band rule whose unsigned upper bound carries an
exponent suffix (`value <= <m>e±<d>`), evaluation does not raise a
validation error: the bound regular expressions capture only the unsigned
digit substring adjacent to the `value` token, so the sign, the
mantissa-plus-marker prefix, or the exponent suffix is silently discarded
and the band is evaluated against the misparsed nonnegative bound
(`-0.05` read as `0.05`, `1e-3` as a lower bound read as `3`, `1e-3` as
an upper bound read as `1`).  A signed upper bound, by contrast, fails
the upper regular expression — which requires a digit right after
`value <=` — and does raise the validation error, for every value and
every rule of that family. -/
theorem band_misparse_signed_exponent :
    (∀ (rule : Rule) (s : Char) (lo hi : DecNum) (v : ℚ) (tv : List ℚ)
       (md : Metadata),
      rule.type = "band" → (s = '-' ∨ s = '+') →
      rule.condition.data = signedLowerBand s lo hi →
      ∃ r, RuleEvaluator.evaluate rule v tv md = .ok r ∧
        (r.triggered = true ↔ (lo.val < v ∧ v ≤ hi.val))) ∧
    (∀ (rule : Rule) (m : DecNum) (e s : Char) (d hi : DecNum) (v : ℚ)
       (tv : List ℚ) (md : Metadata),
      rule.type = "band" → (e = 'e' ∨ e = 'E') → (s = '-' ∨ s = '+') →
      rule.condition.data = expLowerBand m e s d hi →
      ∃ r, RuleEvaluator.evaluate rule v tv md = .ok r ∧
        (r.triggered = true ↔ (d.val < v ∧ v ≤ hi.val))) ∧
    (∀ (rule : Rule) (lo m : DecNum) (e s : Char) (d : DecNum) (v : ℚ)
       (tv : List ℚ) (md : Metadata),
      rule.type = "band" → (e = 'e' ∨ e = 'E') → (s = '-' ∨ s = '+') →
      rule.condition.data = expUpperBand lo m e s d →
      ∃ r, RuleEvaluator.evaluate rule v tv md = .ok r ∧
        (r.triggered = true ↔ (lo.val < v ∧ v ≤ m.val))) ∧
    (∀ (rule : Rule) (lo : DecNum) (s : Char) (hi : DecNum) (v : ℚ)
       (tv : List ℚ) (md : Metadata),
      rule.type = "band" → (s = '-' ∨ s = '+') →
      rule.condition.data = signedUpperBand lo s hi →
      RuleEvaluator.evaluate rule v tv md =
        .error ("Invalid band condition format: " ++ rule.condition)) := by
  refine ⟨?_, ?_, ?_, ?_⟩
  · intro rule s lo hi v tv md htype hs hcond
    refine evaluateBand_of_parse rule v tv md (lo.val, hi.val) htype ?_
    rw [hcond]
    rcases hs with rfl | rfl
    · exact parseBand_signedLower_aux '-' (by decide) (by decide) (by decide) lo hi
    · exact parseBand_signedLower_aux '+' (by decide) (by decide) (by decide) lo hi
  · intro rule m e s d hi v tv md htype hee hs hcond
    refine evaluateBand_of_parse rule v tv md (d.val, hi.val) htype ?_
    rw [hcond]
    have heprops : e.isDigit = false ∧ e ≠ '.' ∧ jsIsSpace e = false ∧ e ≠ '<' := by
      rcases hee with rfl | rfl <;> exact ⟨by decide, by decide, by decide, by decide⟩
    have heA : e ≠ 'A' := by rcases hee with rfl | rfl <;> decide
    have hsA : s ≠ 'A' := by rcases hs with rfl | rfl <;> decide
    have hsd : s.isDigit = false := by rcases hs with rfl | rfl <;> decide
    exact parseBand_expLower_aux m e s heA hsA heprops hsd d hi
  · intro rule lo m e s d v tv md htype hee hs hcond
    refine evaluateBand_of_parse rule v tv md (lo.val, m.val) htype ?_
    rw [hcond]
    have heA : e ≠ 'A' := by rcases hee with rfl | rfl <;> decide
    have hsA : s ≠ 'A' := by rcases hs with rfl | rfl <;> decide
    have hed : e.isDigit = false := by rcases hee with rfl | rfl <;> decide
    have hedot : e ≠ '.' := by rcases hee with rfl | rfl <;> decide
    exact parseBand_expUpper_aux lo m e s heA hsA hed hedot d
  · intro rule lo s hi v tv md htype hs hcond
    refine evaluateBand_of_parse_none rule v tv md htype ?_
    rw [hcond]
    rcases hs with rfl | rfl
    · exact parseBand_signedUpper_aux lo '-' (by decide) (by decide) (by decide)
        (by decide) hi
    · exact parseBand_signedUpper_aux lo '+' (by decide) (by decide) (by decide)
        (by decide) hi

/-- C10 witness: the four families instantiated at the concrete rules
`-0.05 < value AND value <= 0.01` (at value `0.03`, inside the misparsed
band `0.05 < v ≤ 0.01`, hence not triggering), `1e-3 < value AND value
<= 0.01` (at value `0`), `0.002 < value AND value <= 1e-3` (at value
`0.5`, inside the misparsed band `0.002 < v ≤ 1`), and `0.002 < value
AND value <= -0.01` (validation error). -/
theorem band_misparse_signed_exponent_witness :
    (∃ r, RuleEvaluator.evaluate signedLowerBandRule (mkRat 3 100) []
        ⟨none, none⟩ = .ok r ∧
      (r.triggered = true ↔
        (dn005.val < mkRat 3 100 ∧ mkRat 3 100 ≤ dn001.val))) ∧
    (∃ r, RuleEvaluator.evaluate expLowerBandRule 0 [] ⟨none, none⟩ = .ok r ∧
      (r.triggered = true ↔ (dn3.val < 0 ∧ (0 : ℚ) ≤ dn001.val))) ∧
    (∃ r, RuleEvaluator.evaluate expUpperBandRule (mkRat 1 2) [] ⟨none, none⟩ =
        .ok r ∧
      (r.triggered = true ↔
        (dn0002.val < mkRat 1 2 ∧ mkRat 1 2 ≤ dn1.val))) ∧
    RuleEvaluator.evaluate signedUpperBandRule 0 [] ⟨none, none⟩ =
      .error ("Invalid band condition format: " ++ signedUpperBandRule.condition) :=
  ⟨band_misparse_signed_exponent.1 signedLowerBandRule '-' dn005 dn001
     (mkRat 3 100) [] ⟨none, none⟩ rfl (.inl rfl) (by decide),
   band_misparse_signed_exponent.2.1 expLowerBandRule dn1 'e' '-' dn3 dn001
     0 [] ⟨none, none⟩ rfl (.inl rfl) (.inl rfl) (by decide),
   band_misparse_signed_exponent.2.2.1 expUpperBandRule dn0002 dn1 'e' '-' dn3
     (mkRat 1 2) [] ⟨none, none⟩ rfl (.inl rfl) (.inl rfl) (by decide),
   band_misparse_signed_exponent.2.2.2 signedUpperBandRule dn0002 '-' dn001
     0 [] ⟨none, none⟩ rfl (.inl rfl) (by decide)⟩

end AlertsEngine

